import Mathlib

/-!
# Template plugin of the autonity oracle: symbol resolution and price cache

A shallow embedding of `plugins/template_plugin/template_plugin.go`.

* Go maps are association lists read through `GoMap.get`; `GoMap.set` and
  `GoMap.delete` keep at most one entry per key.
* `int64` values are integers reduced into the signed 64-bit range by `int64`,
  so `now - pr.Timestamp` wraps exactly as the Go subtraction does.
* The two clock readings of `FetchPrices` (`time.Now().Unix()` in
  `fetchPricesFromCache` and again after the live fetch) are explicit arguments.
* The data source client, `helpers.NoneSeparatedSymbol` and
  `decimal.NewFromString` are not part of the plugin file; they are arguments.
* The iteration order of `range` over a Go map is unspecified; it is the argument
  `rangeOrder` of `State`.
-/

set_option linter.dupNamespace false

namespace AutonityOracle

/-- Go `error` values, carried as their message. -/
abbrev GoError := String

/-- Conversion to Go `int64`: reduction into the range `[-2^63, 2^63)`. -/
def int64 (x : Int) : Int := (x + 2 ^ 63) % 2 ^ 64 - 2 ^ 63

/-- The Go `strings.Contains`: some suffix of `s` starts with `substr`. -/
def strings.Contains (s substr : String) : Bool :=
  s.data.tails.any (fun t => substr.data.isPrefixOf t)

/-- A Go `map[string]V` as an association list. -/
abbrev GoMap (V : Type) := List (String × V)

namespace GoMap

variable {V : Type}

/-- The lookup `v, ok := m[k]`. -/
def get (m : GoMap V) (k : String) : Option V := List.lookup k m

/-- The `ok` of `_, ok := m[k]`. -/
def has (m : GoMap V) (k : String) : Bool := (get m k).isSome

/-- The read `m[k]` that yields the zero value `z` for an absent key. -/
def getD (m : GoMap V) (k : String) (z : V) : V := (get m k).getD z

/-- The builtin `delete(m, k)`. -/
def delete (m : GoMap V) (k : String) : GoMap V := m.filter (fun e => e.1 != k)

/-- The assignment `m[k] = v`. -/
def set (m : GoMap V) (k : String) (v : V) : GoMap V := (k, v) :: delete m k

/-- The builtin `len(m)`. -/
def len (m : GoMap V) : Nat := m.length

/-- The keys of the map, in storage order. -/
def keys (m : GoMap V) : List String := m.map Prod.fst

end GoMap

/-- The Go `types.Price`, over the decimal type `Dec`. -/
structure types.Price (Dec : Type) where
  Timestamp : Int
  Symbol : String
  Price : Dec
deriving DecidableEq, Repr

/-- The Go `types.PluginConfig`. -/
structure types.PluginConfig where
  Name : String
  Key : String
  Scheme : String
  Endpoint : String
  Timeout : Int
  DataUpdateInterval : Int
deriving DecidableEq, Repr

/-- The Go `types.PluginPriceReport`. -/
structure types.PluginPriceReport (Dec : Type) where
  Prices : List (types.Price Dec)
  BadSymbols : List String
deriving DecidableEq, Repr

/-- The Go `types.PluginState`. -/
structure types.PluginState where
  Version : String
  AvailableSymbols : List String
deriving DecidableEq, Repr

/-- The Go `common.Price`: a symbol and its price as the vendor's string. -/
structure common.Price where
  Symbol : String
  Price : String
deriving DecidableEq, Repr

/-- The Go interface `common.DataSourceClient`, as the answers it gives in one call. -/
structure common.DataSourceClient where
  FetchPrice : List String → Except GoError (List common.Price)
  AvailableSymbols : Except GoError (List String)

/-- Functions the plugin imports: `helpers.NoneSeparatedSymbol`, which returns a
string and an error, and `decimal.NewFromString`. -/
structure Imports (Dec : Type) where
  NoneSeparatedSymbol : String → String × Option GoError
  NewFromString : String → Option Dec

/-- The Go struct `TemplatePlugin` (logger and client left out: the client is an
argument of each call). -/
structure TemplatePlugin (Dec : Type) where
  version : String
  availableSymbols : GoMap Unit
  separatedStyle : Bool
  conf : types.PluginConfig
  cachePrices : GoMap (types.Price Dec)
deriving DecidableEq, Repr

/-- The constructor `NewTemplatePlugin`. -/
def NewTemplatePlugin (Dec : Type) (conf : types.PluginConfig) (version : String) :
    TemplatePlugin Dec :=
  { version := version, availableSymbols := [], separatedStyle := false,
    conf := conf, cachePrices := [] }

namespace TemplatePlugin

variable {Dec : Type}

/-- The loop of `fetchPricesFromCache` from the accumulated `prices` on; the result
is the Go pair `(prices, err)`, and each early exit is a `return nil, err`. -/
def cacheLoop (g : TemplatePlugin Dec) (now : Int) :
    List String → List (types.Price Dec) → List (types.Price Dec) × Option GoError
  | [], prices => (prices, none)
  | s :: rest, prices =>
    match g.cachePrices.get s with
    | none => ([], some "no data buffered")
    | some pr =>
      if int64 (now - pr.Timestamp) > int64 g.conf.DataUpdateInterval then
        ([], some "data is too old")
      else
        cacheLoop g now rest (prices ++ [pr])

/-- The method `fetchPricesFromCache`, with the clock reading `now`. -/
def fetchPricesFromCache (g : TemplatePlugin Dec) (now : Int) (availableSymbols : List String) :
    List (types.Price Dec) × Option GoError :=
  cacheLoop g now availableSymbols []

/-- The three results of `resolveSymbols`. -/
structure Resolved where
  available : List String
  badSymbols : List String
  availableSymbolMap : GoMap String
deriving DecidableEq, Repr

/-- One iteration of the loop of `resolveSymbols`. -/
def resolveStep (imp : Imports Dec) (g : TemplatePlugin Dec) (r : Resolved) (raw : String) :
    Resolved :=
  if g.separatedStyle then
    if !g.availableSymbols.has raw then
      { r with badSymbols := r.badSymbols ++ [raw] }
    else
      { r with available := r.available ++ [raw],
               availableSymbolMap := r.availableSymbolMap.set raw raw }
  else
    let nSymbol := (imp.NoneSeparatedSymbol raw).1
    let err := (imp.NoneSeparatedSymbol raw).2
    let r1 : Resolved :=
      if err.isSome then { r with badSymbols := r.badSymbols ++ [raw] } else r
    if !g.availableSymbols.has nSymbol then
      { r1 with badSymbols := r1.badSymbols ++ [raw] }
    else
      { r1 with available := r1.available ++ [nSymbol],
                availableSymbolMap := r1.availableSymbolMap.set nSymbol raw }

/-- The method `resolveSymbols`. -/
def resolveSymbols (imp : Imports Dec) (g : TemplatePlugin Dec) (symbols : List String) :
    Resolved :=
  symbols.foldl (resolveStep imp g) { available := [], badSymbols := [], availableSymbolMap := [] }

/-- What a `FetchPrices` call leaves behind: the report and error it returns, the
receiver after the call, and the arguments of the `client.FetchPrice` calls made. -/
structure FetchOutcome (Dec : Type) where
  report : types.PluginPriceReport Dec
  err : Option GoError
  plugin : TemplatePlugin Dec
  clientCalls : List (List String)
deriving DecidableEq, Repr

/-- One iteration of the loop over the client's answer in `FetchPrices`: the state
is the cache and the prices reported so far. -/
def liveStep (imp : Imports Dec) (now : Int) (availableSymMap : GoMap String)
    (st : GoMap (types.Price Dec) × List (types.Price Dec)) (v : common.Price) :
    GoMap (types.Price Dec) × List (types.Price Dec) :=
  match imp.NewFromString v.Price with
  | none => st
  | some dec =>
    let pr : types.Price Dec :=
      { Timestamp := now, Symbol := availableSymMap.getD v.Symbol "", Price := dec }
    (st.1.set v.Symbol pr, st.2 ++ [pr])

/-- The method `FetchPrices`; `nowCache` is the clock read by `fetchPricesFromCache`
and `nowLive` the clock read after the client has answered. -/
def FetchPrices (imp : Imports Dec) (g : TemplatePlugin Dec) (client : common.DataSourceClient)
    (nowCache nowLive : Int) (symbols : List String) : FetchOutcome Dec :=
  let r := resolveSymbols imp g symbols
  if r.available.length = 0 then
    { report := { Prices := [], BadSymbols := r.badSymbols },
      err := some "no available symbols", plugin := g, clientCalls := [] }
  else
    match fetchPricesFromCache g nowCache r.available with
    | (cPRs, none) =>
      { report := { Prices := cPRs, BadSymbols := r.badSymbols },
        err := none, plugin := g, clientCalls := [] }
    | (_, some _) =>
      match client.FetchPrice r.available with
      | Except.error e =>
        { report := { Prices := [], BadSymbols := [] },
          err := some e, plugin := g, clientCalls := [r.available] }
      | Except.ok res =>
        let st := res.foldl (liveStep imp nowLive r.availableSymbolMap) (g.cachePrices, [])
        { report := { Prices := st.2, BadSymbols := r.badSymbols },
          err := none, plugin := { g with cachePrices := st.1 },
          clientCalls := [r.available] }

/-- The `range` loop of `State` over the keys in visiting order: both branches
break after the first key. -/
def styleLoop (separatedStyle : Bool) : List String → Bool
  | [] => separatedStyle
  | k :: _ => if strings.Contains k "/" then true else false

/-- The method `State`; `rangeOrder` gives the order in which `range` visits the
keys of `availableSymbols`. -/
def State (g : TemplatePlugin Dec) (client : common.DataSourceClient)
    (rangeOrder : List String → List String) :
    types.PluginState × Option GoError × TemplatePlugin Dec :=
  match client.AvailableSymbols with
  | Except.error e => ({ Version := "", AvailableSymbols := [] }, some e, g)
  | Except.ok symbols =>
    let m1 := if g.availableSymbols.len != 0 then
        symbols.foldl (fun m s => m.delete s) g.availableSymbols
      else g.availableSymbols
    let m2 := symbols.foldl (fun m s => m.set s ()) m1
    let style := styleLoop g.separatedStyle (rangeOrder m2.keys)
    ({ Version := g.version, AvailableSymbols := symbols }, none,
      { g with availableSymbols := m2, separatedStyle := style })

end TemplatePlugin

/-- A stand-in for `helpers.NoneSeparatedSymbol`, used only to run the plugin on
concrete inputs: removes the `/` of a symbol and reports an error for a symbol
without one. -/
def sampleNoneSeparated (s : String) : String × Option GoError :=
  if s.data.contains '/' then (String.mk (s.data.filter (fun c => c != '/')), none)
  else ("", some "invalid symbol")

/-- A stand-in for `decimal.NewFromString`, used only to run the plugin on concrete
inputs: reads a natural number written in digits. -/
def sampleNewFromString (s : String) : Option Nat :=
  if s.data.all Char.isDigit && !s.data.isEmpty then
    some (s.data.foldl (fun n c => 10 * n + (c.toNat - 48)) 0)
  else none

/-- The two stand-ins together, for concrete runs. -/
def sampleImports : Imports Nat :=
  { NoneSeparatedSymbol := sampleNoneSeparated, NewFromString := sampleNewFromString }

/-- A value in the range of Go `int64`. -/
def isInt64 (x : Int) : Prop := -2 ^ 63 ≤ x ∧ x < 2 ^ 63

/-- The symbol `s` has a cache entry that `fetchPricesFromCache` accepts at `now`:
the `int64` difference `now - Timestamp` is at most the update interval. -/
def Unexpired {Dec : Type} (g : TemplatePlugin Dec) (now : Int) (s : String) : Prop :=
  ∃ pr, g.cachePrices.get s = some pr ∧
    int64 (now - pr.Timestamp) ≤ int64 g.conf.DataUpdateInterval

instance (x : Int) : Decidable (isInt64 x) := by
  unfold isInt64
  infer_instance

/-- A plugin configuration for concrete runs: update interval 3600 seconds. -/
def sampleConf : types.PluginConfig :=
  { Name := "template", Key := "", Scheme := "https", Endpoint := "127.0.0.1:8080",
    Timeout := 10, DataUpdateInterval := 3600 }

/-- A plugin in separated style that knows `NTN/USD` and `ATN/USD` and has cached
`NTN/USD` at time 1000. -/
def sampleCached : TemplatePlugin Nat :=
  { version := "v0.0.2", availableSymbols := [("NTN/USD", ()), ("ATN/USD", ())],
    separatedStyle := true, conf := sampleConf,
    cachePrices := [("NTN/USD", { Timestamp := 1000, Symbol := "NTN/USD", Price := 7 })] }

/-- A data source that reports the one symbol `OLD/USD`. -/
def clientOld : common.DataSourceClient :=
  { FetchPrice := fun l => Except.ok (l.map fun s => { Symbol := s, Price := "7" }),
    AvailableSymbols := Except.ok ["OLD/USD"] }

/-- The same data source once it reports `NTN/USD` instead of `OLD/USD`. -/
def clientNew : common.DataSourceClient :=
  { FetchPrice := fun l => Except.ok (l.map fun s => { Symbol := s, Price := "7" }),
    AvailableSymbols := Except.ok ["NTN/USD"] }

/-- A fresh plugin after one state refresh against `clientOld`. -/
def afterOldRefresh : TemplatePlugin Nat :=
  (TemplatePlugin.State (NewTemplatePlugin Nat sampleConf "v0.0.2") clientOld id).2.2

/-- The native form of a requested symbol: the symbol itself in separated style,
the string `helpers.NoneSeparatedSymbol` returns for it otherwise. -/
def nativeForm {Dec : Type} (imp : Imports Dec) (g : TemplatePlugin Dec) (raw : String) :
    String :=
  if g.separatedStyle then raw else (imp.NoneSeparatedSymbol raw).1

/-- The invariant of the loop of `resolveSymbols`, for requested symbols drawn
from `S`. -/
def TemplatePlugin.ResolveSound {Dec : Type} (imp : Imports Dec) (g : TemplatePlugin Dec)
    (S : String → Prop) (r : TemplatePlugin.Resolved) : Prop :=
  ∀ n ∈ r.available, g.availableSymbols.has n = true ∧
    ∃ raw, S raw ∧ r.availableSymbolMap.get n = some raw ∧ nativeForm imp g raw = n

/-- How many requested symbols hit the error branch of `resolveSymbols`: those on
which `helpers.NoneSeparatedSymbol` returns an error, in none-separated style. -/
def helperFailures {Dec : Type} (imp : Imports Dec) (g : TemplatePlugin Dec)
    (symbols : List String) : Nat :=
  if g.separatedStyle then 0
  else (symbols.filter (fun raw => (imp.NoneSeparatedSymbol raw).2.isSome)).length

/-- A plugin in none-separated style that knows `BTCUSD`. -/
def sampleUnseparated : TemplatePlugin Nat :=
  { version := "v0.0.2", availableSymbols := [("BTCUSD", ())], separatedStyle := false,
    conf := sampleConf, cachePrices := [] }

/-- A data source whose symbols mix the two notations. -/
def clientMixed : common.DataSourceClient :=
  { FetchPrice := fun l => Except.ok (l.map fun s => { Symbol := s, Price := "7" }),
    AvailableSymbols := Except.ok ["BTCUSD", "ETH/USD"] }

/-- The plugin as `NewTemplatePlugin` builds it from the sample configuration. -/
def freshPlugin : TemplatePlugin Nat := NewTemplatePlugin Nat sampleConf "v0.0.2"

/-- A data source whose `FetchPrice` always fails. -/
def clientDown : common.DataSourceClient :=
  { FetchPrice := fun _ => Except.error "connection refused",
    AvailableSymbols := Except.error "connection refused" }

/-- The price the live loop of `FetchPrices` builds from the client's entry `v`
at the clock reading `now`, if the price string of `v` parses. -/
def livePrice {Dec : Type} (imp : Imports Dec) (now : Int) (availableSymMap : GoMap String)
    (v : common.Price) : Option (types.Price Dec) :=
  (imp.NewFromString v.Price).map fun dec =>
    { Timestamp := now, Symbol := availableSymMap.getD v.Symbol "", Price := dec }

/-- The price built from the last entry of the client's answer `res` that carries
the native symbol `k` and a price string that parses. -/
def lastLive {Dec : Type} (imp : Imports Dec) (now : Int) (availableSymMap : GoMap String) :
    List common.Price → String → Option (types.Price Dec)
  | [], _ => none
  | v :: rest, k =>
    match lastLive imp now availableSymMap rest k with
    | some p => some p
    | none => if v.Symbol = k then livePrice imp now availableSymMap v else none

/-- The plugin states that calls of `State` and `FetchPrices` can produce from a
plugin built by `NewTemplatePlugin`. -/
inductive Reachable {Dec : Type} (imp : Imports Dec) : TemplatePlugin Dec → Prop
  | new (conf : types.PluginConfig) (version : String) :
      Reachable imp (NewTemplatePlugin Dec conf version)
  | state (g : TemplatePlugin Dec) (client : common.DataSourceClient)
      (rangeOrder : List String → List String) :
      Reachable imp g → (∀ l, (rangeOrder l).Perm l) →
      Reachable imp (TemplatePlugin.State g client rangeOrder).2.2
  | fetch (g : TemplatePlugin Dec) (client : common.DataSourceClient)
      (nowCache nowLive : Int) (symbols : List String) :
      Reachable imp g →
      Reachable imp (TemplatePlugin.FetchPrices imp g client nowCache nowLive symbols).plugin

/-- A data source that knows `NTN/USD` and `ATN/USD` and prices every symbol at 7. -/
def clientSeven : common.DataSourceClient :=
  { FetchPrice := fun l => Except.ok (l.map fun s => { Symbol := s, Price := "7" }),
    AvailableSymbols := Except.ok ["NTN/USD", "ATN/USD"] }

/-- A fresh plugin after a state refresh against `clientSeven`. -/
def runRefreshed : TemplatePlugin Nat :=
  (TemplatePlugin.State freshPlugin clientSeven id).2.2

/-- The entries that one requested symbol adds to `badSymbols` when nothing is
available: one in separated style or when `helpers.NoneSeparatedSymbol` succeeds,
two when it returns an error (the error branch and the failed lookup each append). -/
def badEntries {Dec : Type} (imp : Imports Dec) (g : TemplatePlugin Dec) (raw : String) :
    List String :=
  if g.separatedStyle then [raw]
  else if (imp.NoneSeparatedSymbol raw).2.isSome then [raw, raw] else [raw]

/-- A data source that answers every fetch with an unparsable price for `NTN/USD`
and the price 7 for `ATN/USD`. -/
def clientMalformed : common.DataSourceClient :=
  { FetchPrice := fun _ => Except.ok
      [{ Symbol := "NTN/USD", Price := "n/a" }, { Symbol := "ATN/USD", Price := "7" }],
    AvailableSymbols := Except.ok ["NTN/USD", "ATN/USD"] }

/-- A data source that answers every fetch with a price for `XYZ`, a symbol nobody
asked for. -/
def clientStray : common.DataSourceClient :=
  { FetchPrice := fun _ => Except.ok [{ Symbol := "XYZ", Price := "7" }],
    AvailableSymbols := Except.ok ["NTN/USD", "ATN/USD"] }

/-- The keys of the resolver's map are resolved native symbols. -/
def TemplatePlugin.MapWithin (r : TemplatePlugin.Resolved) : Prop :=
  ∀ n, r.availableSymbolMap.get n ≠ none → n ∈ r.available

/-- The Go variable `defaultForex`. -/
def defaultForex : List String :=
  ["EUR/USD", "JPY/USD", "GBP/USD", "AUD/USD", "CAD/USD", "SEK/USD"]

/-- The Go variable `defaultCrypto`. -/
def defaultCrypto : List String :=
  ["ATN/USD", "NTN/USD", "NTN/AUD", "NTN/CAD", "NTN/EUR", "NTN/GBP", "NTN/JPY", "NTN/SEK"]

/-- What `TemplateClient.FetchPrice` imports: `helpers.ResolveSimulatedPrice` and the
method `String` of `decimal.Decimal`. -/
structure Simulator (Dec : Type) where
  ResolveSimulatedPrice : String → Dec
  DecimalString : Dec → String

/-- The method `TemplateClient.FetchPrice`: the simulated price of each asked symbol,
printed. -/
def TemplateClient.FetchPrice {Dec : Type} (sim : Simulator Dec) (symbols : List String) :
    Except GoError (List common.Price) :=
  Except.ok (symbols.map fun s =>
    { Symbol := s, Price := sim.DecimalString (sim.ResolveSimulatedPrice s) })

/-- The method `TemplateClient.AvailableSymbols`. -/
def TemplateClient.AvailableSymbols : Except GoError (List String) :=
  Except.ok (defaultForex ++ defaultCrypto)

/-- The `TemplateClient` as a `common.DataSourceClient`. -/
def TemplateClient.client {Dec : Type} (sim : Simulator Dec) : common.DataSourceClient :=
  { FetchPrice := TemplateClient.FetchPrice sim,
    AvailableSymbols := TemplateClient.AvailableSymbols }

/-- The states of a `TemplatePlugin` wired to the `TemplateClient`, as `main` builds it:
any sequence of `State` and `FetchPrices` calls on the new plugin. The flag tells
whether `State` has been called. -/
inductive TemplateRun {Dec : Type} (sim : Simulator Dec) (imp : Imports Dec) :
    Bool → TemplatePlugin Dec → Prop
  | new (conf : types.PluginConfig) (version : String) :
      TemplateRun sim imp false (NewTemplatePlugin Dec conf version)
  | state (b : Bool) (g : TemplatePlugin Dec) (rangeOrder : List String → List String) :
      TemplateRun sim imp b g → (∀ l, (rangeOrder l).Perm l) →
      TemplateRun sim imp true
        (TemplatePlugin.State g (TemplateClient.client sim) rangeOrder).2.2
  | fetch (b : Bool) (g : TemplatePlugin Dec) (nowCache nowLive : Int)
      (symbols : List String) :
      TemplateRun sim imp b g →
      TemplateRun sim imp b
        (TemplatePlugin.FetchPrices imp g (TemplateClient.client sim) nowCache nowLive
          symbols).plugin

/-- Every cache entry is labelled with its key and holds the simulated price of it. -/
def SimCache {Dec : Type} (sim : Simulator Dec) (g : TemplatePlugin Dec) : Prop :=
  ∀ k p, g.cachePrices.get k = some p → p.Symbol = k ∧ p.Price = sim.ResolveSimulatedPrice k

/-- The plugin knows exactly the default symbols, in separated style. -/
def Serving {Dec : Type} (g : TemplatePlugin Dec) : Prop :=
  (∀ k, g.availableSymbols.has k = true ↔ k ∈ defaultForex ++ defaultCrypto) ∧
  g.separatedStyle = true

/-- A stand-in for `helpers.ResolveSimulatedPrice` and `Decimal.String`, used only to
run the plugin on concrete inputs: 8 for `NTN/USD` and 7 for every other symbol. -/
def sampleSimulator : Simulator Nat :=
  { ResolveSimulatedPrice := fun s => if s = "NTN/USD" then 8 else 7,
    DecimalString := fun d => if d = 8 then "8" else "7" }

/-- The template plugin after its first state refresh. -/
def templateRefreshed : TemplatePlugin Nat :=
  (TemplatePlugin.State freshPlugin (TemplateClient.client sampleSimulator) id).2.2

/-! ### The diagnostics endpoint (`http_server/http_server.go`) -/

/-- The Go `types.JSONRPCMessage`, with the fields the server uses; raw JSON is carried
as text. -/
structure types.JSONRPCMessage where
  ID : String
  Method : String
  Result : String
  Error : String
deriving DecidableEq, Repr

namespace httpserver

/-- The Go `http.StatusOK`. -/
def StatusOK : Nat := 200

/-- The Go `http.StatusBadRequest`. -/
def StatusBadRequest : Nat := 400

/-- The Go `http.StatusInternalServerError`. -/
def StatusInternalServerError : Nat := 500

/-- What the handlers read from `hs.oracle`: `Version()`, `GetPrices()`, `Symbols()`
and `GetPlugins()`; the price and plugin tables are kept abstract. -/
structure OracleServer (P Q : Type) where
  Version : String
  GetPrices : P
  Symbols : List String
  GetPlugins : Q

/-- The Go `json.Marshal` on the three payloads the handlers encode. -/
structure JsonMarshal (P Q : Type) where
  Version : String → Except GoError String
  PriceAndSymbol : P → List String → Except GoError String
  Plugins : Q → Except GoError String

/-- The Go struct `HTTPServer`, with the field the handlers read. -/
structure HTTPServer (P Q : Type) where
  oracle : OracleServer P Q
  port : Nat

variable {P Q : Type}

/-- The handler `getVersion`. -/
def getVersion (json : JsonMarshal P Q) (hs : HTTPServer P Q) (reqMsg : types.JSONRPCMessage) :
    Nat × types.JSONRPCMessage :=
  match json.Version hs.oracle.Version with
  | Except.error err =>
    (StatusInternalServerError, { ID := "", Method := "", Result := "", Error := err })
  | Except.ok enc => (StatusOK, { ID := reqMsg.ID, Method := "", Result := enc, Error := "" })

/-- The handler `getPrices`. -/
def getPrices (json : JsonMarshal P Q) (hs : HTTPServer P Q) (reqMsg : types.JSONRPCMessage) :
    Nat × types.JSONRPCMessage :=
  match json.PriceAndSymbol hs.oracle.GetPrices hs.oracle.Symbols with
  | Except.error err =>
    (StatusInternalServerError, { ID := "", Method := "", Result := "", Error := err })
  | Except.ok enc => (StatusOK, { ID := reqMsg.ID, Method := "", Result := enc, Error := "" })

/-- The handler `listPlugins`. -/
def listPlugins (json : JsonMarshal P Q) (hs : HTTPServer P Q) (reqMsg : types.JSONRPCMessage) :
    Nat × types.JSONRPCMessage :=
  match json.Plugins hs.oracle.GetPlugins with
  | Except.error err =>
    (StatusInternalServerError, { ID := "", Method := "", Result := "", Error := err })
  | Except.ok enc => (StatusOK, { ID := reqMsg.ID, Method := "", Result := enc, Error := "" })

/-- The `POST /` handler that `createRouter` registers. `decoded` is what
`json.NewDecoder(c.Request.Body).Decode(&reqMsg)` leaves: the message as far as it was
filled in, and the error. The result lists the `c.JSON` calls in the order made. -/
def createRouter (json : JsonMarshal P Q) (hs : HTTPServer P Q)
    (decoded : types.JSONRPCMessage × Option GoError) : List (Nat × types.JSONRPCMessage) :=
  let reqMsg := decoded.1
  let onDecode : List (Nat × types.JSONRPCMessage) :=
    match decoded.2 with
    | some err => [(StatusBadRequest, { ID := "", Method := "", Result := "", Error := err })]
    | none => []
  let onMethod : Nat × types.JSONRPCMessage :=
    if reqMsg.Method = "list_plugins" then listPlugins json hs reqMsg
    else if reqMsg.Method = "get_version" then getVersion json hs reqMsg
    else if reqMsg.Method = "get_prices" then getPrices json hs reqMsg
    else (StatusBadRequest,
      { ID := reqMsg.ID, Method := "", Result := "", Error := "unknown method" })
  onDecode ++ [onMethod]

end httpserver

/-! ### The aggregator (specification section 4.3) -/

namespace Aggregator

/-- Modelled from the spec: the `AggregatedPrice` of the data model, "(symbol, final
price, number of contributing sources, round id)"; the aggregator's code (package
`oracle_server`) is not among the source files. Prices are exact decimals, carried as
rationals. -/
structure AggregatedPrice where
  symbol : String
  price : ℚ
  sources : Nat
  round : Nat
deriving DecidableEq

/-- Modelled from the spec: the median of section 4.3, "sort before taking the
median", the middle value for an odd count and "when the count is even, average the
two central values"; the aggregator's code is not among the source files. No value
for no observation. -/
def median (obs : List ℚ) : Option ℚ :=
  let sorted := obs.insertionSort (fun a b => a ≤ b)
  let n := sorted.length
  if n = 0 then none
  else if n % 2 = 1 then sorted[n / 2]?
  else
    match sorted[n / 2 - 1]?, sorted[n / 2]? with
    | some a, some b => some ((a + b) / 2)
    | _, _ => none

/-- Modelled from the spec: the aggregation policy of section 4.3 for one symbol in
one round; the aggregator's code is not among the source files. "If the count of
observations is below the configured minimum-sources threshold, the symbol is marked
bad for this round (no value emitted)", otherwise the value is the median and the
record holds the number of contributing sources. -/
def aggregate (minSources : Nat) (symbol : String) (round : Nat) (obs : List ℚ) :
    Option AggregatedPrice :=
  if obs.length < minSources then none
  else
    match median obs with
    | none => none
    | some v => some { symbol := symbol, price := v, sources := obs.length, round := round }

end Aggregator

/-! ### `resolveConf` and its defaults (`template_plugin.go`) -/

/-- The Go constant `defaultScheme`. -/
def defaultScheme : String := "https"

/-- The Go constant `defaultHost`. -/
def defaultHost : String := "127.0.0.1:8080"

/-- The Go constant `defaultTimeout`. -/
def defaultTimeout : Int := 10

/-- The Go constant `defaultUpdateInterval`. -/
def defaultUpdateInterval : Int := 3600

/-- The Go constant `defaultKey`. -/
def defaultKey : String := ""

/-- The Go function `resolveConf`: the configuration after the five assignments; the
builtin `len` of a string is its size in bytes. -/
def resolveConf (conf : types.PluginConfig) : types.PluginConfig :=
  let conf1 := if conf.Timeout = 0 then { conf with Timeout := defaultTimeout } else conf
  let conf2 :=
    if conf1.DataUpdateInterval = 0 then
      { conf1 with DataUpdateInterval := defaultUpdateInterval }
    else conf1
  let conf3 :=
    if conf2.Scheme.utf8ByteSize = 0 then { conf2 with Scheme := defaultScheme } else conf2
  let conf4 :=
    if conf3.Endpoint.utf8ByteSize = 0 then { conf3 with Endpoint := defaultHost } else conf3
  if conf4.Key.utf8ByteSize = 0 then { conf4 with Key := defaultKey } else conf4

/-! ### `IsZero` (`e2e_test/helpers.go`) -/

namespace test

/-- The Go standard library function `subtle.ConstantTimeByteEq(x, y uint8) int`,
`int((uint32(x^y) - 1) >> 31)`, with the `uint32` subtraction wrapping. -/
def ConstantTimeByteEq (x y : Nat) : Nat :=
  (((x ^^^ y) % 2 ^ 32 + 2 ^ 32 - 1) % 2 ^ 32) >>> 31

/-- The loop of `IsZero`: `b |= s` over the bytes of the key. -/
def orBytes (b : Nat) (sKey : List (Fin 256)) : Nat :=
  sKey.foldl (fun b s => (b ||| s.val) % 256) b

/-- The Go function `IsZero` on a byte slice. -/
def IsZero (sKey : List (Fin 256)) : Bool :=
  ConstantTimeByteEq (orBytes 0 sKey) 0 == 1

end test

/-- A data source that answers a fetch in reverse order of the request, pricing
`NTN/USD` at 8 and every other symbol at 7. -/
def clientReversed : common.DataSourceClient :=
  { FetchPrice := fun l => Except.ok
      (l.reverse.map fun s => { Symbol := s, Price := if s = "NTN/USD" then "8" else "7" }),
    AvailableSymbols := Except.ok ["NTN/USD", "ATN/USD"] }

/-- A data source that answers every fetch with a price for `ATN/USD`, whatever was
asked. -/
def clientOther : common.DataSourceClient :=
  { FetchPrice := fun _ => Except.ok [{ Symbol := "ATN/USD", Price := "7" }],
    AvailableSymbols := Except.ok ["NTN/USD", "ATN/USD"] }

/-- The refreshed sample plugin after it asked `clientOther` for `NTN/USD` at time
1000. -/
def runStrayCached : TemplatePlugin Nat :=
  (TemplatePlugin.FetchPrices sampleImports runRefreshed clientOther 1000 1000
    ["NTN/USD"]).plugin

/-! ## Theorems -/

theorem GoMap.mem_of_get {V : Type} (m : GoMap V) (k : String) (v : V)
    (h : m.get k = some v) : (k, v) ∈ m := by
  induction m with
  | nil => simp [GoMap.get] at h
  | cons e rest ih =>
    obtain ⟨k1, v1⟩ := e
    by_cases hk : k = k1
    · subst hk
      simp [GoMap.get, List.lookup] at h
      simp [h]
    · have hb : (k == k1) = false := by simpa using hk
      simp only [GoMap.get, List.lookup, hb] at h
      exact List.mem_cons_of_mem _ (ih h)

theorem GoMap.get_delete {V : Type} (m : GoMap V) (k k1 : String) :
    (m.delete k).get k1 = if k1 = k then none else m.get k1 := by
  induction m with
  | nil => simp [GoMap.delete, GoMap.get]
  | cons e rest ih =>
    obtain ⟨k2, v2⟩ := e
    simp only [GoMap.delete, GoMap.get] at ih ⊢
    by_cases h2 : k2 = k
    · subst h2
      simp only [List.filter, bne_self_eq_false, ih]
      by_cases h1 : k1 = k2
      · simp [h1]
      · have hb : (k1 == k2) = false := by simpa using h1
        simp [h1, List.lookup, hb]
    · have hb : (k2 != k) = true := by simpa using h2
      simp only [List.filter, hb, List.lookup]
      by_cases h1 : k1 = k2
      · subst h1
        simp [h2]
      · have hb1 : (k1 == k2) = false := by simpa using h1
        simp only [hb1, ih]

theorem GoMap.get_set {V : Type} (m : GoMap V) (k k1 : String) (v : V) :
    (m.set k v).get k1 = if k1 = k then some v else m.get k1 := by
  by_cases h1 : k1 = k
  · subst h1
    simp [GoMap.set, GoMap.get, List.lookup]
  · have hb : (k1 == k) = false := by simpa using h1
    have hd := GoMap.get_delete m k k1
    simp only [GoMap.get] at hd
    simp only [GoMap.set, GoMap.get, List.lookup, hb, hd, if_neg h1]

theorem GoMap.has_set {V : Type} (m : GoMap V) (k k1 : String) (v : V) :
    (m.set k v).has k1 = (decide (k1 = k) || m.has k1) := by
  simp only [GoMap.has, GoMap.get_set]
  by_cases h1 : k1 = k <;> simp [h1]

theorem GoMap.has_delete {V : Type} (m : GoMap V) (k k1 : String) :
    (m.delete k).has k1 = (!decide (k1 = k) && m.has k1) := by
  simp only [GoMap.has, GoMap.get_delete]
  by_cases h1 : k1 = k <;> simp [h1]

theorem GoMap.has_foldl_set (syms : List String) :
    ∀ (m : GoMap Unit) (k : String),
      (syms.foldl (fun m s => m.set s ()) m).has k = (m.has k || decide (k ∈ syms)) := by
  induction syms with
  | nil => intro m k; simp
  | cons s rest ih =>
    intro m k
    simp only [List.foldl_cons, ih, GoMap.has_set, List.mem_cons]
    by_cases h1 : k = s <;> simp [h1]

theorem GoMap.has_foldl_delete (syms : List String) :
    ∀ (m : GoMap Unit) (k : String),
      (syms.foldl (fun m s => m.delete s) m).has k = (m.has k && !decide (k ∈ syms)) := by
  induction syms with
  | nil => intro m k; simp
  | cons s rest ih =>
    intro m k
    simp only [List.foldl_cons, ih, GoMap.has_delete, List.mem_cons]
    by_cases h1 : k = s <;> simp [h1]

theorem GoMap.has_iff_mem_keys {V : Type} (m : GoMap V) (k : String) :
    m.has k = true ↔ k ∈ m.keys := by
  induction m with
  | nil => simp [GoMap.has, GoMap.get, GoMap.keys]
  | cons e rest ih =>
    obtain ⟨k2, v2⟩ := e
    simp only [GoMap.has, GoMap.get, GoMap.keys] at ih ⊢
    by_cases h1 : k = k2
    · subst h1
      simp [List.lookup]
    · have hb : (k == k2) = false := by simpa using h1
      simp only [List.lookup, hb, ih]
      simp [h1]

theorem int64_of_isInt64 {x : Int} (h : isInt64 x) : int64 x = x := by
  unfold isInt64 at h
  unfold int64
  omega

namespace TemplatePlugin

variable {Dec : Type}

theorem cacheLoop_of_unexpired (g : TemplatePlugin Dec) (now : Int) :
    ∀ (syms : List String) (acc : List (types.Price Dec)),
      (∀ s ∈ syms, Unexpired g now s) →
      ∃ ps, cacheLoop g now syms acc = (acc ++ ps, none) ∧
        ps.map some = syms.map g.cachePrices.get := by
  intro syms
  induction syms with
  | nil => intro acc _; exact ⟨[], by simp [cacheLoop]⟩
  | cons s rest ih =>
    intro acc h
    obtain ⟨pr, hget, hle⟩ := h s (List.mem_cons_self s rest)
    obtain ⟨ps, hps, hmap⟩ := ih (acc ++ [pr]) (fun t ht => h t (List.mem_cons_of_mem s ht))
    refine ⟨pr :: ps, ?_, ?_⟩
    · simp only [cacheLoop, hget]
      rw [if_neg (not_lt.mpr hle), hps]
      simp
    · simp [hmap, hget]

theorem cacheLoop_of_expired (g : TemplatePlugin Dec) (now : Int) :
    ∀ (syms : List String) (acc : List (types.Price Dec)),
      (∃ s ∈ syms, ¬ Unexpired g now s) →
      (cacheLoop g now syms acc).1 = [] ∧ (cacheLoop g now syms acc).2 ≠ none := by
  intro syms
  induction syms with
  | nil => intro acc h; obtain ⟨s, hs, _⟩ := h; cases hs
  | cons s rest ih =>
    intro acc h
    cases hget : g.cachePrices.get s with
    | none => simp [cacheLoop, hget]
    | some pr =>
      by_cases hgt : int64 (now - pr.Timestamp) > int64 g.conf.DataUpdateInterval
      · simp [cacheLoop, hget, hgt]
      · have hrest : ∃ t ∈ rest, ¬ Unexpired g now t := by
          obtain ⟨t, ht, hnot⟩ := h
          rcases List.mem_cons.mp ht with rfl | ht
          · exact absurd ⟨pr, hget, not_lt.mp hgt⟩ hnot
          · exact ⟨t, ht, hnot⟩
        simp only [cacheLoop, hget, if_neg hgt]
        exact ih (acc ++ [pr]) hrest

/-- C1: `fetchPricesFromCache` is all-or-nothing. For every cache content, clock
reading and list of native symbols it returns a nil error exactly when every listed
symbol has a cache entry whose (int64) age `now - Timestamp` is at most
`DataUpdateInterval`; with a nil error the returned prices are the cache entries of
the listed symbols, one per symbol in request order; with an error the returned
list is empty. -/
theorem fetchPricesFromCache_all_or_nothing (g : TemplatePlugin Dec) (now : Int)
    (syms : List String) :
    ((fetchPricesFromCache g now syms).2 = none ↔
      ∀ s ∈ syms, ∃ pr, g.cachePrices.get s = some pr ∧
        int64 (now - pr.Timestamp) ≤ int64 g.conf.DataUpdateInterval) ∧
    ((fetchPricesFromCache g now syms).2 = none →
      (fetchPricesFromCache g now syms).1.map some = syms.map g.cachePrices.get ∧
      (fetchPricesFromCache g now syms).1.length = syms.length) ∧
    ((fetchPricesFromCache g now syms).2 ≠ none →
      (fetchPricesFromCache g now syms).1 = []) := by
  by_cases hall : ∀ s ∈ syms, Unexpired g now s
  · obtain ⟨ps, hps, hmap⟩ := cacheLoop_of_unexpired g now syms [] hall
    have hlen : ps.length = syms.length := by
      have := congrArg List.length hmap
      simpa using this
    have hf : fetchPricesFromCache g now syms = (ps, none) := by
      simpa [fetchPricesFromCache] using hps
    rw [hf]
    exact ⟨⟨fun _ => hall, fun _ => rfl⟩, fun _ => ⟨hmap, hlen⟩, fun h => absurd rfl h⟩
  · have hex : ∃ s ∈ syms, ¬ Unexpired g now s := by
      push_neg at hall
      exact hall
    obtain ⟨h1, h2⟩ := cacheLoop_of_expired g now syms [] hex
    refine ⟨⟨fun h => absurd h h2, fun h => absurd h hall⟩, fun h => absurd h h2, fun _ => h1⟩

/-- C2: a cached observation is never served past its freshness deadline
`Timestamp + DataUpdateInterval`. When the update interval is an int64 and no cache
entry's age `now - Timestamp` overflows int64 (as for any two Unix clock readings):
every observation that `fetchPricesFromCache` returns at `now` has
`now ≤ Timestamp + DataUpdateInterval`; an entry whose deadline is exactly `now` is
served; and an entry whose deadline is `now - 1` makes the whole call fail with no
observation returned. -/
theorem cache_never_served_past_deadline (g : TemplatePlugin Dec) (now : Int)
    (syms : List String)
    (hD : isInt64 g.conf.DataUpdateInterval)
    (hT : ∀ e ∈ g.cachePrices, isInt64 (now - e.2.Timestamp)) :
    (∀ pr ∈ (fetchPricesFromCache g now syms).1,
      now ≤ pr.Timestamp + g.conf.DataUpdateInterval) ∧
    (∀ s pr, g.cachePrices.get s = some pr →
      pr.Timestamp + g.conf.DataUpdateInterval = now →
      fetchPricesFromCache g now [s] = ([pr], none)) ∧
    (∀ s pr, s ∈ syms → g.cachePrices.get s = some pr →
      pr.Timestamp + g.conf.DataUpdateInterval = now - 1 →
      (fetchPricesFromCache g now syms).1 = [] ∧
      (fetchPricesFromCache g now syms).2 ≠ none) := by
  have hage : ∀ s pr, g.cachePrices.get s = some pr →
      int64 (now - pr.Timestamp) = now - pr.Timestamp := fun s pr h =>
    int64_of_isInt64 (hT (s, pr) (GoMap.mem_of_get _ _ _ h))
  have hint : int64 g.conf.DataUpdateInterval = g.conf.DataUpdateInterval :=
    int64_of_isInt64 hD
  refine ⟨?_, ?_, ?_⟩
  · intro pr hpr
    by_cases hall : ∀ s ∈ syms, Unexpired g now s
    · obtain ⟨ps, hps, hmap⟩ := cacheLoop_of_unexpired g now syms [] hall
      have hf : fetchPricesFromCache g now syms = (ps, none) := by
        simpa [fetchPricesFromCache] using hps
      rw [hf] at hpr
      have hmem : some pr ∈ syms.map g.cachePrices.get := by
        rw [← hmap]
        exact List.mem_map_of_mem some hpr
      obtain ⟨s, hs, hget⟩ := List.mem_map.mp hmem
      obtain ⟨pr1, hget1, hle⟩ := hall s hs
      rw [hget] at hget1
      cases hget1
      rw [hage s pr hget, hint] at hle
      omega
    · have hex : ∃ s ∈ syms, ¬ Unexpired g now s := by
        push_neg at hall
        exact hall
      have hnil : (fetchPricesFromCache g now syms).1 = [] :=
        (cacheLoop_of_expired g now syms [] hex).1
      rw [hnil] at hpr
      cases hpr
  · intro s pr hget hdl
    have hle : ¬ int64 (now - pr.Timestamp) > int64 g.conf.DataUpdateInterval := by
      rw [hage s pr hget, hint]
      omega
    simp [fetchPricesFromCache, cacheLoop, hget, hle]
  · intro s pr hs hget hdl
    apply cacheLoop_of_expired g now syms []
    refine ⟨s, hs, ?_⟩
    rintro ⟨pr1, hget1, hle⟩
    rw [hget] at hget1
    cases hget1
    rw [hage s pr hget, hint] at hle
    omega

/-- Witness for C2: the cache entry of `NTN/USD` stamped 1000 with interval 3600 at
the clock reading 4600, its exact deadline. -/
theorem cache_never_served_past_deadline_witness :
    isInt64 sampleCached.conf.DataUpdateInterval ∧
    (∀ e ∈ sampleCached.cachePrices, isInt64 (4600 - e.2.Timestamp)) ∧
    (∀ pr ∈ (fetchPricesFromCache sampleCached 4600 ["NTN/USD"]).1,
      (4600 : Int) ≤ pr.Timestamp + sampleCached.conf.DataUpdateInterval) ∧
    fetchPricesFromCache sampleCached 4600 ["NTN/USD"] =
      ([{ Timestamp := 1000, Symbol := "NTN/USD", Price := 7 }], none) ∧
    (fetchPricesFromCache sampleCached 4601 ["NTN/USD"]).2 ≠ none :=
  ⟨by decide, by decide,
    (cache_never_served_past_deadline sampleCached 4600 ["NTN/USD"]
      (by decide) (by decide)).1,
    (cache_never_served_past_deadline sampleCached 4600 ["NTN/USD"]
      (by decide) (by decide)).2.1 "NTN/USD"
      { Timestamp := 1000, Symbol := "NTN/USD", Price := 7 } (by decide) (by decide),
    ((cache_never_served_past_deadline sampleCached 4601 ["NTN/USD"]
      (by decide) (by decide)).2.2 "NTN/USD"
      { Timestamp := 1000, Symbol := "NTN/USD", Price := 7 }
      (by decide) (by decide) (by decide)).2⟩

/-- After a successful `State`, a symbol is in `availableSymbols` exactly when it
was there before the call or the client reported it in this call. -/
theorem State_has (g : TemplatePlugin Dec) (client : common.DataSourceClient)
    (rangeOrder : List String → List String) (symbols : List String)
    (hc : client.AvailableSymbols = Except.ok symbols) (k : String) :
    (State g client rangeOrder).2.2.availableSymbols.has k =
      (g.availableSymbols.has k || decide (k ∈ symbols)) := by
  simp only [State, hc, GoMap.has_foldl_set]
  by_cases hlen : g.availableSymbols.len = 0
  · simp [hlen]
  · simp only [bne_iff_ne, ne_eq, hlen, not_false_eq_true, if_true, GoMap.has_foldl_delete]
    by_cases hk : k ∈ symbols <;> simp [hk]

/-- C3 at its failing input: a plugin refreshed against a source reporting
`OLD/USD`, then refreshed successfully against a source reporting only `NTN/USD`,
still holds `OLD/USD` in `availableSymbols`, a symbol the second call did not
return. -/
theorem State_keeps_unreported_symbol :
    afterOldRefresh.availableSymbols.keys = ["OLD/USD"] ∧
    (State afterOldRefresh clientNew id).2.1 = none ∧
    (State afterOldRefresh clientNew id).1.AvailableSymbols = ["NTN/USD"] ∧
    (State afterOldRefresh clientNew id).2.2.availableSymbols.has "OLD/USD" = true ∧
    (State afterOldRefresh clientNew id).2.2.availableSymbols.keys =
      ["NTN/USD", "OLD/USD"] := by
  decide

theorem ResolveSound.push (imp : Imports Dec) (g : TemplatePlugin Dec) (S : String → Prop)
    (r : Resolved) (n raw : String) (h : ResolveSound imp g S r)
    (hhas : g.availableSymbols.has n = true) (hS : S raw) (hn : nativeForm imp g raw = n)
    (bad : List String) :
    ResolveSound imp g S { available := r.available ++ [n], badSymbols := bad,
                           availableSymbolMap := r.availableSymbolMap.set n raw } := by
  intro n1 hn1
  simp only [GoMap.get_set]
  by_cases h1 : n1 = n
  · subst h1
    exact ⟨hhas, raw, hS, by simp, hn⟩
  · have hold : n1 ∈ r.available := by
      rcases List.mem_append.mp hn1 with h | h
      · exact h
      · exact absurd (List.mem_singleton.mp h) h1
    obtain ⟨hh, raw1, hS1, hget1, hn1f⟩ := h n1 hold
    exact ⟨hh, raw1, hS1, by simp [h1, hget1], hn1f⟩

theorem resolveStep_sound (imp : Imports Dec) (g : TemplatePlugin Dec) (S : String → Prop)
    (r : Resolved) (raw : String) (h : ResolveSound imp g S r) (hS : S raw) :
    ResolveSound imp g S (resolveStep imp g r raw) := by
  unfold resolveStep
  by_cases hsep : g.separatedStyle = true
  · simp only [hsep, if_true]
    by_cases hhas : g.availableSymbols.has raw = true
    · simp only [hhas, Bool.not_true, Bool.false_eq_true, if_false]
      exact ResolveSound.push imp g S r raw raw h hhas hS (by simp [nativeForm, hsep]) _
    · simp only [Bool.not_eq_true] at hhas
      simp only [hhas, Bool.not_false, if_true]
      exact h
  · simp only [hsep, Bool.false_eq_true, if_false]
    by_cases hhas : g.availableSymbols.has (imp.NoneSeparatedSymbol raw).1 = true
    · simp only [hhas, Bool.not_true, Bool.false_eq_true, if_false]
      by_cases herr : (imp.NoneSeparatedSymbol raw).2.isSome = true
      · simp only [herr, if_true]
        exact ResolveSound.push imp g S r _ raw h hhas hS (by simp [nativeForm, hsep]) _
      · simp only [herr, Bool.false_eq_true, if_false]
        exact ResolveSound.push imp g S r _ raw h hhas hS (by simp [nativeForm, hsep]) _
    · simp only [Bool.not_eq_true] at hhas
      simp only [hhas, Bool.not_false, if_true]
      by_cases herr : (imp.NoneSeparatedSymbol raw).2.isSome = true
      · simp only [herr, if_true]
        exact h
      · simp only [herr, Bool.false_eq_true, if_false]
        exact h

theorem foldl_resolveStep_sound (imp : Imports Dec) (g : TemplatePlugin Dec)
    (S : String → Prop) :
    ∀ (syms : List String) (r : Resolved), (∀ x ∈ syms, S x) → ResolveSound imp g S r →
      ResolveSound imp g S (syms.foldl (resolveStep imp g) r) := by
  intro syms
  induction syms with
  | nil => intro r _ h; exact h
  | cons x rest ih =>
    intro r hS h
    exact ih _ (fun y hy => hS y (List.mem_cons_of_mem x hy))
      (resolveStep_sound imp g S r x h (hS x (List.mem_cons_self x rest)))

/-- C4: `resolveSymbols` is sound. For every plugin state, every
`helpers.NoneSeparatedSymbol` and every request list, each symbol of the returned
native list is a member of `availableSymbols` and a key of the returned map, and the
map sends it to a symbol of the request whose native form it is; in separated style
the map sends each returned symbol to itself. -/
theorem resolveSymbols_sound (imp : Imports Dec) (g : TemplatePlugin Dec)
    (symbols : List String) :
    ∀ n ∈ (resolveSymbols imp g symbols).available,
      g.availableSymbols.has n = true ∧
      (∃ raw, raw ∈ symbols ∧
        (resolveSymbols imp g symbols).availableSymbolMap.get n = some raw ∧
        nativeForm imp g raw = n) ∧
      (g.separatedStyle = true →
        (resolveSymbols imp g symbols).availableSymbolMap.get n = some n) := by
  intro n hn
  have hinv : ResolveSound imp g (fun x => x ∈ symbols) (resolveSymbols imp g symbols) :=
    foldl_resolveStep_sound imp g _ symbols _ (fun x hx => hx)
      (fun m hm => by cases hm)
  obtain ⟨hhas, raw, hraw, hget, hnat⟩ := hinv n hn
  refine ⟨hhas, ⟨raw, hraw, hget, hnat⟩, ?_⟩
  intro hsep
  simp only [nativeForm, hsep, if_true] at hnat
  rw [hget, hnat]

/-- Witness for C4: the none-separated sample plugin resolves the request `BTC/USD`
to its known native symbol `BTCUSD` and maps that back to `BTC/USD`. -/
theorem resolveSymbols_sound_witness :
    "BTCUSD" ∈ (resolveSymbols sampleImports sampleUnseparated ["BTC/USD"]).available ∧
    sampleUnseparated.availableSymbols.has "BTCUSD" = true ∧
    (∃ raw, raw ∈ ["BTC/USD"] ∧
      (resolveSymbols sampleImports sampleUnseparated ["BTC/USD"]).availableSymbolMap.get
        "BTCUSD" = some raw ∧
      nativeForm sampleImports sampleUnseparated raw = "BTCUSD") :=
  ⟨by decide,
    (resolveSymbols_sound sampleImports sampleUnseparated ["BTC/USD"] "BTCUSD"
      (by decide)).1,
    (resolveSymbols_sound sampleImports sampleUnseparated ["BTC/USD"] "BTCUSD"
      (by decide)).2.1⟩

theorem resolveStep_count (imp : Imports Dec) (g : TemplatePlugin Dec) (r : Resolved)
    (raw : String) :
    (resolveStep imp g r raw).available.length + (resolveStep imp g r raw).badSymbols.length =
      r.available.length + r.badSymbols.length + 1 + helperFailures imp g [raw] := by
  unfold resolveStep helperFailures
  by_cases hsep : g.separatedStyle = true
  · simp only [hsep, if_true]
    by_cases hhas : g.availableSymbols.has raw = true
    · simp [hhas]; omega
    · simp only [Bool.not_eq_true] at hhas
      simp [hhas]; omega
  · simp only [hsep, Bool.false_eq_true, if_false]
    by_cases hhas : g.availableSymbols.has (imp.NoneSeparatedSymbol raw).1 = true
    · by_cases herr : (imp.NoneSeparatedSymbol raw).2.isSome = true
      · simp [hhas, herr, List.filter]; omega
      · simp only [Bool.not_eq_true] at herr
        simp [hhas, herr, List.filter]; omega
    · simp only [Bool.not_eq_true] at hhas
      by_cases herr : (imp.NoneSeparatedSymbol raw).2.isSome = true
      · simp [hhas, herr, List.filter]; omega
      · simp only [Bool.not_eq_true] at herr
        simp [hhas, herr, List.filter]; omega

theorem helperFailures_cons (imp : Imports Dec) (g : TemplatePlugin Dec) (x : String)
    (rest : List String) :
    helperFailures imp g (x :: rest) = helperFailures imp g [x] + helperFailures imp g rest := by
  unfold helperFailures
  by_cases hsep : g.separatedStyle = true
  · simp [hsep]
  · by_cases herr : (imp.NoneSeparatedSymbol x).2.isSome = true
    · simp [hsep, herr, List.filter]; omega
    · simp [hsep, herr, List.filter]

theorem foldl_resolveStep_count (imp : Imports Dec) (g : TemplatePlugin Dec) :
    ∀ (syms : List String) (r : Resolved),
      (syms.foldl (resolveStep imp g) r).available.length +
        (syms.foldl (resolveStep imp g) r).badSymbols.length =
      r.available.length + r.badSymbols.length + syms.length + helperFailures imp g syms := by
  intro syms
  induction syms with
  | nil => intro r; simp [helperFailures]
  | cons x rest ih =>
    intro r
    have hc := helperFailures_cons imp g x rest
    rw [List.foldl_cons, ih, resolveStep_count, List.length_cons]
    omega

/-- The two output lists of `resolveSymbols` together hold one entry per requested
symbol and one more for each symbol that hit the error branch. -/
theorem resolveSymbols_count (imp : Imports Dec) (g : TemplatePlugin Dec)
    (symbols : List String) :
    (resolveSymbols imp g symbols).available.length +
      (resolveSymbols imp g symbols).badSymbols.length =
    symbols.length + helperFailures imp g symbols := by
  unfold resolveSymbols
  rw [foldl_resolveStep_count]
  simp

/-- C5 at its failing input: in none-separated style, a request of one symbol on
which `helpers.NoneSeparatedSymbol` returns an error yields two entries in the two
output lists together, not one, and the symbol is listed as bad even when the string
returned with the error is known and so resolved as native. -/
theorem resolveSymbols_counts_failed_symbol_twice (imp : Imports Dec)
    (g : TemplatePlugin Dec) (raw : String)
    (hsep : g.separatedStyle = false)
    (herr : (imp.NoneSeparatedSymbol raw).2 ≠ none) :
    (resolveSymbols imp g [raw]).available.length +
      (resolveSymbols imp g [raw]).badSymbols.length = 2 ∧
    raw ∈ (resolveSymbols imp g [raw]).badSymbols ∧
    (g.availableSymbols.has (imp.NoneSeparatedSymbol raw).1 = true →
      (resolveSymbols imp g [raw]).available = [(imp.NoneSeparatedSymbol raw).1]) := by
  have hsome : (imp.NoneSeparatedSymbol raw).2.isSome = true := by
    cases h : (imp.NoneSeparatedSymbol raw).2 with
    | none => exact absurd h herr
    | some e => rfl
  refine ⟨?_, ?_, ?_⟩
  · rw [resolveSymbols_count]
    simp [helperFailures, hsep, hsome, List.filter]
  · by_cases hhas : g.availableSymbols.has (imp.NoneSeparatedSymbol raw).1 = true
    · simp [resolveSymbols, resolveStep, hsep, hsome, hhas]
    · simp only [Bool.not_eq_true] at hhas
      simp [resolveSymbols, resolveStep, hsep, hsome, hhas]
  · intro hhas
    simp [resolveSymbols, resolveStep, hsep, hsome, hhas]

/-- Witness for C5: the sample helper fails on `BTC-USD`, and the none-separated
sample plugin lists it as bad twice. -/
theorem resolveSymbols_counts_failed_symbol_twice_witness :
    sampleUnseparated.separatedStyle = false ∧
    (sampleImports.NoneSeparatedSymbol "BTC-USD").2 ≠ none ∧
    (resolveSymbols sampleImports sampleUnseparated ["BTC-USD"]).available.length +
      (resolveSymbols sampleImports sampleUnseparated ["BTC-USD"]).badSymbols.length = 2 ∧
    (resolveSymbols sampleImports sampleUnseparated ["BTC-USD"]).badSymbols =
      ["BTC-USD", "BTC-USD"] :=
  ⟨by decide, by decide,
    (resolveSymbols_counts_failed_symbol_twice sampleImports sampleUnseparated "BTC-USD"
      (by decide) (by decide)).1,
    by decide⟩

/-- C6 refuted as stated: after a successful `State` against a source reporting
`BTCUSD` and `ETH/USD`, the set holds a symbol with `/`, yet `separatedStyle` is
false when `range` visits `BTCUSD` first and true when it visits `ETH/USD` first,
the set being the same. -/
theorem State_style_depends_on_visiting_order :
    (State freshPlugin clientMixed List.reverse).2.1 = none ∧
    (State freshPlugin clientMixed List.reverse).2.2.availableSymbols.has "ETH/USD" = true ∧
    strings.Contains "ETH/USD" "/" = true ∧
    (State freshPlugin clientMixed List.reverse).2.2.separatedStyle = false ∧
    (State freshPlugin clientMixed id).2.2.availableSymbols =
      (State freshPlugin clientMixed List.reverse).2.2.availableSymbols ∧
    (State freshPlugin clientMixed id).2.2.separatedStyle = true := by
  decide

/-- C6 amended: after a successful `State` that leaves `availableSymbols` non-empty,
`separatedStyle` is true exactly when the first symbol `range` visits contains `/`;
when all symbols of the set agree on containing `/`, that is exactly when some
symbol of the set contains `/`, whatever the visiting order. -/
theorem State_style_of_first_visited (g : TemplatePlugin Dec)
    (client : common.DataSourceClient) (rangeOrder : List String → List String)
    (symbols : List String)
    (hc : client.AvailableSymbols = Except.ok symbols)
    (hperm : ∀ l, (rangeOrder l).Perm l)
    (hne : (State g client rangeOrder).2.2.availableSymbols ≠ []) :
    (∃ k rest, rangeOrder (State g client rangeOrder).2.2.availableSymbols.keys = k :: rest ∧
      (State g client rangeOrder).2.2.availableSymbols.has k = true ∧
      ((State g client rangeOrder).2.2.separatedStyle = true ↔
        strings.Contains k "/" = true)) ∧
    ((∀ k1 k2, (State g client rangeOrder).2.2.availableSymbols.has k1 = true →
        (State g client rangeOrder).2.2.availableSymbols.has k2 = true →
        strings.Contains k1 "/" = strings.Contains k2 "/") →
      ((State g client rangeOrder).2.2.separatedStyle = true ↔
        ∃ k, (State g client rangeOrder).2.2.availableSymbols.has k = true ∧
          strings.Contains k "/" = true)) := by
  simp only [State, hc] at hne ⊢
  generalize (List.foldl (fun m s => GoMap.set m s ())
    (if g.availableSymbols.len != 0 then
      List.foldl (fun m s => GoMap.delete m s) g.availableSymbols symbols
    else g.availableSymbols) symbols) = m2 at hne ⊢
  have hkeys : rangeOrder m2.keys ≠ [] := by
    intro h
    have hl := (hperm m2.keys).length_eq
    rw [h] at hl
    cases m2 with
    | nil => exact hne rfl
    | cons e rest => simp [GoMap.keys] at hl
  obtain ⟨k, rest, hk⟩ : ∃ k rest, rangeOrder m2.keys = k :: rest := by
    cases h : rangeOrder m2.keys with
    | nil => exact absurd h hkeys
    | cons k rest => exact ⟨k, rest, rfl⟩
  have hhas : m2.has k = true := by
    rw [GoMap.has_iff_mem_keys]
    apply (hperm m2.keys).subset
    rw [hk]
    exact List.mem_cons_self k rest
  have hstyle : styleLoop g.separatedStyle (rangeOrder m2.keys) = strings.Contains k "/" := by
    rw [hk]
    simp [styleLoop]
  refine ⟨⟨k, rest, hk, hhas, by rw [hstyle]⟩, ?_⟩
  intro hom
  rw [hstyle]
  constructor
  · intro h
    exact ⟨k, hhas, h⟩
  · rintro ⟨k1, hk1, hc1⟩
    rw [hom k k1 hhas hk1]
    exact hc1

/-- Witness for C6 amended: the fresh sample plugin refreshed against the source
reporting `OLD/USD`, visited in storage order. -/
theorem State_style_of_first_visited_witness :
    clientOld.AvailableSymbols = Except.ok ["OLD/USD"] ∧
    (State freshPlugin clientOld id).2.2.availableSymbols ≠ [] ∧
    (State freshPlugin clientOld id).2.2.separatedStyle = true ∧
    (∃ k rest, id (State freshPlugin clientOld id).2.2.availableSymbols.keys = k :: rest ∧
      (State freshPlugin clientOld id).2.2.availableSymbols.has k = true ∧
      ((State freshPlugin clientOld id).2.2.separatedStyle = true ↔
        strings.Contains k "/" = true)) :=
  ⟨rfl, by decide, by decide,
    (State_style_of_first_visited freshPlugin clientOld id ["OLD/USD"] rfl
      (fun l => List.Perm.refl l) (by decide)).1⟩

/-- The outcome of `FetchPrices` on the cache path: some symbol resolves and the
cache holds an unexpired entry for every resolved native symbol. -/
theorem FetchPrices_hit (imp : Imports Dec) (g : TemplatePlugin Dec) (nowCache : Int)
    (symbols : List String)
    (hres : (resolveSymbols imp g symbols).available ≠ [])
    (hfresh : ∀ s ∈ (resolveSymbols imp g symbols).available, Unexpired g nowCache s) :
    ∃ ps, ps.map some = (resolveSymbols imp g symbols).available.map g.cachePrices.get ∧
      ∀ (c : common.DataSourceClient) (t : Int),
        FetchPrices imp g c nowCache t symbols =
          { report := { Prices := ps,
                        BadSymbols := (resolveSymbols imp g symbols).badSymbols },
            err := none, plugin := g, clientCalls := [] } := by
  obtain ⟨ps, hps, hmap⟩ :=
    cacheLoop_of_unexpired g nowCache (resolveSymbols imp g symbols).available [] hfresh
  have hlen : ¬ (resolveSymbols imp g symbols).available.length = 0 := by
    intro h
    exact hres (List.length_eq_zero.mp h)
  have hf : fetchPricesFromCache g nowCache (resolveSymbols imp g symbols).available =
      (ps, none) := by
    simpa [fetchPricesFromCache] using hps
  refine ⟨ps, hmap, ?_⟩
  intro c t
  simp only [FetchPrices, hlen, if_false, hf]

/-- C7: a cache hit means no live call. If at least one requested symbol resolves and
every resolved native symbol has an unexpired cache entry, `FetchPrices` returns a
nil error, `Prices` are the cache entries of the resolved native symbols in order,
`BadSymbols` is the resolver's bad list, `client.FetchPrice` is not invoked, the
plugin (with its `cachePrices`) is left as it was, and the outcome is the same for
every client and every later clock reading. -/
theorem FetchPrices_cache_hit (imp : Imports Dec) (g : TemplatePlugin Dec)
    (client : common.DataSourceClient) (nowCache nowLive : Int) (symbols : List String)
    (hres : (resolveSymbols imp g symbols).available ≠ [])
    (hfresh : ∀ s ∈ (resolveSymbols imp g symbols).available,
      ∃ pr, g.cachePrices.get s = some pr ∧
        int64 (nowCache - pr.Timestamp) ≤ int64 g.conf.DataUpdateInterval) :
    (FetchPrices imp g client nowCache nowLive symbols).err = none ∧
    (FetchPrices imp g client nowCache nowLive symbols).report.Prices.map some =
      (resolveSymbols imp g symbols).available.map g.cachePrices.get ∧
    (FetchPrices imp g client nowCache nowLive symbols).report.BadSymbols =
      (resolveSymbols imp g symbols).badSymbols ∧
    (FetchPrices imp g client nowCache nowLive symbols).clientCalls = [] ∧
    (FetchPrices imp g client nowCache nowLive symbols).plugin = g ∧
    (∀ (client1 : common.DataSourceClient) (nowLive1 : Int),
      FetchPrices imp g client1 nowCache nowLive1 symbols =
        FetchPrices imp g client nowCache nowLive symbols) := by
  obtain ⟨ps, hmap, hout⟩ := FetchPrices_hit imp g nowCache symbols hres hfresh
  rw [hout client nowLive]
  exact ⟨rfl, hmap, rfl, rfl, rfl, fun c t => hout c t⟩

/-- Witness for C7: the sample plugin with `NTN/USD` cached at 1000, asked for
`NTN/USD` and the unknown `XYZ/USD` at time 2000 against a source that is down. -/
theorem FetchPrices_cache_hit_witness :
    (resolveSymbols sampleImports sampleCached ["NTN/USD", "XYZ/USD"]).available ≠ [] ∧
    (FetchPrices sampleImports sampleCached clientDown 2000 2001
      ["NTN/USD", "XYZ/USD"]).err = none ∧
    (FetchPrices sampleImports sampleCached clientDown 2000 2001
      ["NTN/USD", "XYZ/USD"]).report =
      { Prices := [{ Timestamp := 1000, Symbol := "NTN/USD", Price := 7 }],
        BadSymbols := ["XYZ/USD"] } ∧
    (FetchPrices sampleImports sampleCached clientDown 2000 2001
      ["NTN/USD", "XYZ/USD"]).clientCalls = [] :=
  ⟨by decide,
    (FetchPrices_cache_hit sampleImports sampleCached clientDown 2000 2001
      ["NTN/USD", "XYZ/USD"] (by decide) (by decide)).1,
    by decide,
    (FetchPrices_cache_hit sampleImports sampleCached clientDown 2000 2001
      ["NTN/USD", "XYZ/USD"] (by decide) (by decide)).2.2.2.1⟩

theorem foldl_liveStep_prices (imp : Imports Dec) (now : Int) (symMap : GoMap String) :
    ∀ (res : List common.Price) (st : GoMap (types.Price Dec) × List (types.Price Dec)),
      (res.foldl (liveStep imp now symMap) st).2 =
        st.2 ++ res.filterMap (livePrice imp now symMap) := by
  intro res
  induction res with
  | nil => intro st; simp
  | cons v rest ih =>
    intro st
    rw [List.foldl_cons, ih]
    cases hp : imp.NewFromString v.Price with
    | none => simp [liveStep, livePrice, hp, List.filterMap_cons]
    | some dec => simp [liveStep, livePrice, hp, List.filterMap_cons]

theorem liveStep_get (imp : Imports Dec) (now : Int) (symMap : GoMap String)
    (st : GoMap (types.Price Dec) × List (types.Price Dec)) (v : common.Price) (k : String) :
    (liveStep imp now symMap st v).1.get k =
      match (if v.Symbol = k then livePrice imp now symMap v else none) with
      | some p => some p
      | none => st.1.get k := by
  cases hp : imp.NewFromString v.Price with
  | none => by_cases hk : v.Symbol = k <;> simp [liveStep, livePrice, hp, hk]
  | some dec =>
    by_cases hk : v.Symbol = k
    · simp [liveStep, livePrice, hp, hk, GoMap.get_set]
    · have hk1 : ¬ k = v.Symbol := fun h => hk h.symm
      simp [liveStep, livePrice, hp, hk, hk1, GoMap.get_set]

theorem foldl_liveStep_get (imp : Imports Dec) (now : Int) (symMap : GoMap String)
    (k : String) :
    ∀ (res : List common.Price) (st : GoMap (types.Price Dec) × List (types.Price Dec)),
      (res.foldl (liveStep imp now symMap) st).1.get k =
        match lastLive imp now symMap res k with
        | some p => some p
        | none => st.1.get k := by
  intro res
  induction res with
  | nil => intro st; simp [lastLive]
  | cons v rest ih =>
    intro st
    rw [List.foldl_cons, ih, liveStep_get]
    simp only [lastLive]
    cases lastLive imp now symMap rest k with
    | some p => rfl
    | none => rfl

theorem lastLive_some (imp : Imports Dec) (now : Int) (symMap : GoMap String) (k : String)
    (p : types.Price Dec) :
    ∀ (res : List common.Price), lastLive imp now symMap res k = some p →
      ∃ v ∈ res, v.Symbol = k ∧ livePrice imp now symMap v = some p := by
  intro res
  induction res with
  | nil => intro h; simp [lastLive] at h
  | cons v rest ih =>
    intro h
    simp only [lastLive] at h
    cases hl : lastLive imp now symMap rest k with
    | some q =>
      rw [hl] at h
      cases h
      obtain ⟨w, hw, hsym, hlp⟩ := ih hl
      exact ⟨w, List.mem_cons_of_mem v hw, hsym, hlp⟩
    | none =>
      rw [hl] at h
      by_cases hk : v.Symbol = k
      · simp only [hk, if_true] at h
        exact ⟨v, List.mem_cons_self v rest, hk, h⟩
      · simp [hk] at h

theorem lastLive_none (imp : Imports Dec) (now : Int) (symMap : GoMap String) (k : String) :
    ∀ (res : List common.Price), lastLive imp now symMap res k = none →
      ∀ v ∈ res, v.Symbol = k → livePrice imp now symMap v = none := by
  intro res
  induction res with
  | nil => intro _ v hv; cases hv
  | cons w rest ih =>
    intro h v hv hk
    simp only [lastLive] at h
    cases hl : lastLive imp now symMap rest k with
    | some q => rw [hl] at h; cases h
    | none =>
      rw [hl] at h
      rcases List.mem_cons.mp hv with rfl | hv1
      · simpa [hk] using h
      · exact ih hl v hv1 hk

theorem livePrice_timestamp (imp : Imports Dec) (now : Int) (symMap : GoMap String)
    (v : common.Price) (p : types.Price Dec) (h : livePrice imp now symMap v = some p) :
    p.Timestamp = now := by
  unfold livePrice at h
  cases hp : imp.NewFromString v.Price with
  | none => simp [hp] at h
  | some dec =>
    simp only [hp, Option.map_some', Option.some.injEq] at h
    rw [← h]

/-- The outcome of `FetchPrices` on the live path: the cache cannot serve the
resolved symbols and the client answers `res`. -/
theorem FetchPrices_live (imp : Imports Dec) (g : TemplatePlugin Dec)
    (client : common.DataSourceClient) (nowCache nowLive : Int) (symbols : List String)
    (res : List common.Price)
    (hres : (resolveSymbols imp g symbols).available ≠ [])
    (hmiss : (fetchPricesFromCache g nowCache (resolveSymbols imp g symbols).available).2 ≠ none)
    (hc : client.FetchPrice (resolveSymbols imp g symbols).available = Except.ok res) :
    FetchPrices imp g client nowCache nowLive symbols =
      { report :=
          { Prices := res.filterMap
              (livePrice imp nowLive (resolveSymbols imp g symbols).availableSymbolMap),
            BadSymbols := (resolveSymbols imp g symbols).badSymbols },
        err := none,
        plugin := { g with cachePrices :=
          (res.foldl (liveStep imp nowLive (resolveSymbols imp g symbols).availableSymbolMap)
            (g.cachePrices, [])).1 },
        clientCalls := [(resolveSymbols imp g symbols).available] } := by
  have hlen : ¬ (resolveSymbols imp g symbols).available.length = 0 := by
    intro h
    exact hres (List.length_eq_zero.mp h)
  cases hf : fetchPricesFromCache g nowCache (resolveSymbols imp g symbols).available with
  | mk ps e =>
    cases e with
    | none => rw [hf] at hmiss; exact absurd rfl hmiss
    | some e1 =>
      simp only [FetchPrices, hlen, if_false, hf, hc, foldl_liveStep_prices, List.nil_append]

/-- On the live path the client is asked once, for the whole resolved list. -/
theorem FetchPrices_live_calls (imp : Imports Dec) (g : TemplatePlugin Dec)
    (client : common.DataSourceClient) (nowCache nowLive : Int) (symbols : List String)
    (hres : (resolveSymbols imp g symbols).available ≠ [])
    (hmiss : (fetchPricesFromCache g nowCache (resolveSymbols imp g symbols).available).2 ≠ none) :
    (FetchPrices imp g client nowCache nowLive symbols).clientCalls =
      [(resolveSymbols imp g symbols).available] := by
  have hlen : ¬ (resolveSymbols imp g symbols).available.length = 0 := by
    intro h
    exact hres (List.length_eq_zero.mp h)
  cases hf : fetchPricesFromCache g nowCache (resolveSymbols imp g symbols).available with
  | mk ps e =>
    cases e with
    | none => rw [hf] at hmiss; exact absurd rfl hmiss
    | some e1 =>
      cases hc : client.FetchPrice (resolveSymbols imp g symbols).available with
      | error e2 => simp only [FetchPrices, hlen, if_false, hf, hc]
      | ok res => simp only [FetchPrices, hlen, if_false, hf, hc]

/-- On the live path an error of the client is returned as the error of the call. -/
theorem FetchPrices_live_error (imp : Imports Dec) (g : TemplatePlugin Dec)
    (client : common.DataSourceClient) (nowCache nowLive : Int) (symbols : List String)
    (e : GoError)
    (hres : (resolveSymbols imp g symbols).available ≠ [])
    (hmiss : (fetchPricesFromCache g nowCache (resolveSymbols imp g symbols).available).2 ≠ none)
    (hc : client.FetchPrice (resolveSymbols imp g symbols).available = Except.error e) :
    FetchPrices imp g client nowCache nowLive symbols =
      { report := { Prices := [], BadSymbols := [] }, err := some e, plugin := g,
        clientCalls := [(resolveSymbols imp g symbols).available] } := by
  have hlen : ¬ (resolveSymbols imp g symbols).available.length = 0 := by
    intro h
    exact hres (List.length_eq_zero.mp h)
  cases hf : fetchPricesFromCache g nowCache (resolveSymbols imp g symbols).available with
  | mk ps e0 =>
    cases e0 with
    | none => rw [hf] at hmiss; exact absurd rfl hmiss
    | some e1 => simp only [FetchPrices, hlen, if_false, hf, hc]

theorem cache_miss_of_expired (g : TemplatePlugin Dec) (now : Int) (syms : List String)
    (hmiss : ∃ s ∈ syms, g.cachePrices.get s = none ∨
      ∃ pr, g.cachePrices.get s = some pr ∧
        int64 (now - pr.Timestamp) > int64 g.conf.DataUpdateInterval) :
    syms ≠ [] ∧ (fetchPricesFromCache g now syms).2 ≠ none := by
  obtain ⟨s, hs, hcase⟩ := hmiss
  refine ⟨fun h => (by rw [h] at hs; cases hs), ?_⟩
  apply (cacheLoop_of_expired g now syms [] ⟨s, hs, ?_⟩).2
  rintro ⟨pr, hget, hle⟩
  rcases hcase with hnone | ⟨pr1, hget1, hgt⟩
  · rw [hnone] at hget
    cases hget
  · rw [hget] at hget1
    cases hget1
    exact absurd hle (not_le.mpr hgt)

/-- C9: a cache miss or expiry bypasses the cache completely. If some resolved
native symbol has no cache entry or an expired one, `FetchPrices` calls
`client.FetchPrice` once with the full list of resolved native symbols; when the
client answers `res`, the call succeeds, `Prices` are exactly the prices built from
the entries of `res` that parse, in order, each with `Timestamp` equal to the clock
read after the fetch; and the cache afterwards holds, under each native symbol of
such an entry, a price of this answer stamped with that clock (the last one for the
symbol; the price itself when the answer names each symbol once), other keys being
left as they were. -/
theorem FetchPrices_cache_miss (imp : Imports Dec) (g : TemplatePlugin Dec)
    (client : common.DataSourceClient) (nowCache nowLive : Int) (symbols : List String)
    (hmiss : ∃ s ∈ (resolveSymbols imp g symbols).available,
      g.cachePrices.get s = none ∨
      ∃ pr, g.cachePrices.get s = some pr ∧
        int64 (nowCache - pr.Timestamp) > int64 g.conf.DataUpdateInterval) :
    (FetchPrices imp g client nowCache nowLive symbols).clientCalls =
      [(resolveSymbols imp g symbols).available] ∧
    ∀ res, client.FetchPrice (resolveSymbols imp g symbols).available = Except.ok res →
      (FetchPrices imp g client nowCache nowLive symbols).err = none ∧
      (FetchPrices imp g client nowCache nowLive symbols).report.Prices =
        res.filterMap
          (livePrice imp nowLive (resolveSymbols imp g symbols).availableSymbolMap) ∧
      (∀ p ∈ (FetchPrices imp g client nowCache nowLive symbols).report.Prices,
        p.Timestamp = nowLive) ∧
      (∀ v ∈ res, ∀ p,
        livePrice imp nowLive (resolveSymbols imp g symbols).availableSymbolMap v = some p →
        ∃ q, (FetchPrices imp g client nowCache nowLive symbols).plugin.cachePrices.get
              v.Symbol = some q ∧
          q.Timestamp = nowLive ∧
          ∃ w ∈ res, w.Symbol = v.Symbol ∧
            livePrice imp nowLive (resolveSymbols imp g symbols).availableSymbolMap w =
              some q) ∧
      ((res.map fun v => v.Symbol).Nodup → ∀ v ∈ res, ∀ p,
        livePrice imp nowLive (resolveSymbols imp g symbols).availableSymbolMap v = some p →
        (FetchPrices imp g client nowCache nowLive symbols).plugin.cachePrices.get
          v.Symbol = some p) ∧
      (∀ k, (∀ v ∈ res, v.Symbol = k →
          livePrice imp nowLive (resolveSymbols imp g symbols).availableSymbolMap v = none) →
        (FetchPrices imp g client nowCache nowLive symbols).plugin.cachePrices.get k =
          g.cachePrices.get k) := by
  obtain ⟨hres, hm⟩ := cache_miss_of_expired g nowCache _ hmiss
  refine ⟨FetchPrices_live_calls imp g client nowCache nowLive symbols hres hm, ?_⟩
  intro res hc
  rw [FetchPrices_live imp g client nowCache nowLive symbols res hres hm hc]
  have hstored : ∀ v ∈ res, ∀ p,
      livePrice imp nowLive (resolveSymbols imp g symbols).availableSymbolMap v = some p →
      ∃ q, lastLive imp nowLive (resolveSymbols imp g symbols).availableSymbolMap res
          v.Symbol = some q := by
    intro v hv p hp
    cases hl : lastLive imp nowLive (resolveSymbols imp g symbols).availableSymbolMap res
        v.Symbol with
    | some q => exact ⟨q, rfl⟩
    | none =>
      have := lastLive_none imp nowLive _ v.Symbol res hl v hv rfl
      rw [hp] at this
      cases this
  refine ⟨rfl, rfl, ?_, ?_, ?_, ?_⟩
  · intro p hp
    obtain ⟨v, _, hv⟩ := List.mem_filterMap.mp hp
    exact livePrice_timestamp imp nowLive _ v p hv
  · intro v hv p hp
    obtain ⟨q, hq⟩ := hstored v hv p hp
    obtain ⟨w, hw, hsym, hlp⟩ := lastLive_some imp nowLive _ v.Symbol q res hq
    refine ⟨q, ?_, livePrice_timestamp imp nowLive _ w q hlp, w, hw, hsym, hlp⟩
    simp only [foldl_liveStep_get, hq]
  · intro hnd v hv p hp
    obtain ⟨q, hq⟩ := hstored v hv p hp
    obtain ⟨w, hw, hsym, hlp⟩ := lastLive_some imp nowLive _ v.Symbol q res hq
    have hwv : w = v := List.inj_on_of_nodup_map hnd hw hv hsym
    subst hwv
    rw [hp] at hlp
    cases hlp
    simp only [foldl_liveStep_get, hq]
  · intro k hk
    have hl : lastLive imp nowLive (resolveSymbols imp g symbols).availableSymbolMap res
        k = none := by
      cases hl : lastLive imp nowLive (resolveSymbols imp g symbols).availableSymbolMap res
          k with
      | none => rfl
      | some q =>
        obtain ⟨w, hw, hsym, hlp⟩ := lastLive_some imp nowLive _ k q res hl
        rw [hk w hw hsym] at hlp
        cases hlp
    simp only [foldl_liveStep_get, hl]

/-- Witness for C9: the sample plugin has `NTN/USD` cached but not `ATN/USD`; asked
for both, it fetches both live and restamps `NTN/USD`. -/
theorem FetchPrices_cache_miss_witness :
    (∃ s ∈ (resolveSymbols sampleImports sampleCached ["NTN/USD", "ATN/USD"]).available,
      sampleCached.cachePrices.get s = none ∨
      ∃ pr, sampleCached.cachePrices.get s = some pr ∧
        int64 (2000 - pr.Timestamp) > int64 sampleCached.conf.DataUpdateInterval) ∧
    (FetchPrices sampleImports sampleCached clientSeven 2000 2001
      ["NTN/USD", "ATN/USD"]).clientCalls = [["NTN/USD", "ATN/USD"]] ∧
    (FetchPrices sampleImports sampleCached clientSeven 2000 2001
      ["NTN/USD", "ATN/USD"]).report.Prices =
      [{ Timestamp := 2001, Symbol := "NTN/USD", Price := 7 },
       { Timestamp := 2001, Symbol := "ATN/USD", Price := 7 }] ∧
    (FetchPrices sampleImports sampleCached clientSeven 2000 2001
      ["NTN/USD", "ATN/USD"]).plugin.cachePrices.get "NTN/USD" =
      some { Timestamp := 2001, Symbol := "NTN/USD", Price := 7 } :=
  ⟨⟨"ATN/USD", by decide, Or.inl (by decide)⟩,
    (FetchPrices_cache_miss sampleImports sampleCached clientSeven 2000 2001
      ["NTN/USD", "ATN/USD"] ⟨"ATN/USD", by decide, Or.inl (by decide)⟩).1,
    by decide, by decide⟩

theorem resolveSymbols_congr (imp : Imports Dec) (g g1 : TemplatePlugin Dec)
    (hs : g1.availableSymbols = g.availableSymbols)
    (hst : g1.separatedStyle = g.separatedStyle) (symbols : List String) :
    resolveSymbols imp g1 symbols = resolveSymbols imp g symbols := by
  have hstep : resolveStep imp g1 = resolveStep imp g := by
    funext r raw
    unfold resolveStep
    rw [hs, hst]
  unfold resolveSymbols
  rw [hstep]

theorem filterMap_map_some {α β : Type} (f : α → Option β) :
    ∀ (l : List α), (∀ v ∈ l, f v ≠ none) → (l.filterMap f).map some = l.map f := by
  intro l
  induction l with
  | nil => intro _; rfl
  | cons v rest ih =>
    intro h
    have hrest := ih (fun w hw => h w (List.mem_cons_of_mem v hw))
    cases hv : f v with
    | none => exact absurd hv (h v (List.mem_cons_self v rest))
    | some b => simp [List.filterMap_cons, hv, hrest]

theorem livePrice_ne_none (imp : Imports Dec) (now : Int) (symMap : GoMap String)
    (v : common.Price) (h : imp.NewFromString v.Price ≠ none) :
    livePrice imp now symMap v ≠ none := by
  unfold livePrice
  cases hp : imp.NewFromString v.Price with
  | none => exact absurd hp h
  | some dec => simp

theorem lastLive_of_parsed (imp : Imports Dec) (now : Int) (symMap : GoMap String)
    (res : List common.Price) (v : common.Price) (hv : v ∈ res)
    (hp : imp.NewFromString v.Price ≠ none) :
    ∃ q w, lastLive imp now symMap res v.Symbol = some q ∧ w ∈ res ∧
      w.Symbol = v.Symbol ∧ livePrice imp now symMap w = some q := by
  cases hl : lastLive imp now symMap res v.Symbol with
  | some q =>
    obtain ⟨w, hw, hsym, hlp⟩ := lastLive_some imp now symMap v.Symbol q res hl
    exact ⟨q, w, rfl, hw, hsym, hlp⟩
  | none =>
    exact absurd (lastLive_none imp now symMap v.Symbol res hl v hv rfl)
      (livePrice_ne_none imp now symMap v hp)

/-- C8: repeating a fetch within the freshness window re-serves the stored
observations. Suppose a first `FetchPrices` call goes live (the cache cannot serve the
resolved symbols), the client's answer holds, for every resolved native symbol, an
entry under that symbol whose price string parses (in any order, whatever else it
holds), and the clock read after the fetch is `t1`. Then a second call with the same
symbols whose clock reading `t2` has `0 ≤ t2 - t1 ≤ DataUpdateInterval` succeeds
without querying its client and leaves the plugin unchanged; it returns one price per
resolved symbol in request order, the cache entry of that symbol, which is a price the
first call reported from an entry of that symbol, with `Timestamp = t1`, and exactly
the price reported for the symbol when the answer names each symbol once. When the
answer is just the resolved symbols (in some order) the two reports are equally long,
and when it lists them in request order, each once, they are the same list. -/
theorem FetchPrices_repeat_within_window (imp : Imports Dec) (g : TemplatePlugin Dec)
    (client client2 : common.DataSourceClient) (nowCache1 t1 t2 nowLive2 : Int)
    (symbols : List String) (res : List common.Price)
    (hres : (resolveSymbols imp g symbols).available ≠ [])
    (hmiss : (fetchPricesFromCache g nowCache1 (resolveSymbols imp g symbols).available).2 ≠
      none)
    (hc : client.FetchPrice (resolveSymbols imp g symbols).available = Except.ok res)
    (hans : ∀ s ∈ (resolveSymbols imp g symbols).available,
      ∃ v ∈ res, v.Symbol = s ∧ imp.NewFromString v.Price ≠ none)
    (hD : isInt64 g.conf.DataUpdateInterval)
    (h0 : 0 ≤ t2 - t1) (h1 : t2 - t1 ≤ g.conf.DataUpdateInterval) :
    (FetchPrices imp g client nowCache1 t1 symbols).err = none ∧
    (FetchPrices imp g client nowCache1 t1 symbols).clientCalls =
      [(resolveSymbols imp g symbols).available] ∧
    (FetchPrices imp (FetchPrices imp g client nowCache1 t1 symbols).plugin client2 t2
      nowLive2 symbols).err = none ∧
    (FetchPrices imp (FetchPrices imp g client nowCache1 t1 symbols).plugin client2 t2
      nowLive2 symbols).clientCalls = [] ∧
    (FetchPrices imp (FetchPrices imp g client nowCache1 t1 symbols).plugin client2 t2
      nowLive2 symbols).plugin = (FetchPrices imp g client nowCache1 t1 symbols).plugin ∧
    (FetchPrices imp (FetchPrices imp g client nowCache1 t1 symbols).plugin client2 t2
      nowLive2 symbols).report.BadSymbols =
      (FetchPrices imp g client nowCache1 t1 symbols).report.BadSymbols ∧
    (FetchPrices imp (FetchPrices imp g client nowCache1 t1 symbols).plugin client2 t2
      nowLive2 symbols).report.Prices.map some =
      (resolveSymbols imp g symbols).available.map
        (FetchPrices imp g client nowCache1 t1 symbols).plugin.cachePrices.get ∧
    (∀ s ∈ (resolveSymbols imp g symbols).available,
      ∃ w ∈ res, ∃ p, w.Symbol = s ∧
        livePrice imp t1 (resolveSymbols imp g symbols).availableSymbolMap w = some p ∧
        (FetchPrices imp g client nowCache1 t1 symbols).plugin.cachePrices.get s = some p ∧
        p ∈ (FetchPrices imp g client nowCache1 t1 symbols).report.Prices ∧
        p.Timestamp = t1) ∧
    (∀ p ∈ (FetchPrices imp (FetchPrices imp g client nowCache1 t1 symbols).plugin client2 t2
        nowLive2 symbols).report.Prices,
      p ∈ (FetchPrices imp g client nowCache1 t1 symbols).report.Prices ∧
      p.Timestamp = t1) ∧
    ((res.map fun v => v.Symbol).Nodup →
      ∀ v ∈ res, ∀ p,
        livePrice imp t1 (resolveSymbols imp g symbols).availableSymbolMap v = some p →
        (FetchPrices imp g client nowCache1 t1 symbols).plugin.cachePrices.get v.Symbol =
          some p) ∧
    ((res.map fun v => v.Symbol).Perm (resolveSymbols imp g symbols).available →
      (∀ v ∈ res, imp.NewFromString v.Price ≠ none) →
      (FetchPrices imp (FetchPrices imp g client nowCache1 t1 symbols).plugin client2 t2
        nowLive2 symbols).report.Prices.length =
      (FetchPrices imp g client nowCache1 t1 symbols).report.Prices.length) ∧
    ((res.map fun v => v.Symbol) = (resolveSymbols imp g symbols).available →
      (∀ v ∈ res, imp.NewFromString v.Price ≠ none) →
      (resolveSymbols imp g symbols).available.Nodup →
      (FetchPrices imp (FetchPrices imp g client nowCache1 t1 symbols).plugin client2 t2
        nowLive2 symbols).report.Prices =
      (FetchPrices imp g client nowCache1 t1 symbols).report.Prices) := by
  have ho1 := FetchPrices_live imp g client nowCache1 t1 symbols res hres hmiss hc
  obtain ⟨g1, hg1⟩ : ∃ g1 : TemplatePlugin Dec, { g with cachePrices :=
      (res.foldl (liveStep imp t1 (resolveSymbols imp g symbols).availableSymbolMap)
        (g.cachePrices, [])).1 } = g1 := ⟨_, rfl⟩
  have hplug : (FetchPrices imp g client nowCache1 t1 symbols).plugin = g1 := by
    rw [ho1, ← hg1]
  have herr1 : (FetchPrices imp g client nowCache1 t1 symbols).err = none := by rw [ho1]
  have hcalls1 : (FetchPrices imp g client nowCache1 t1 symbols).clientCalls =
      [(resolveSymbols imp g symbols).available] := by rw [ho1]
  have hprices1 : (FetchPrices imp g client nowCache1 t1 symbols).report.Prices =
      res.filterMap (livePrice imp t1 (resolveSymbols imp g symbols).availableSymbolMap) := by
    rw [ho1]
  have hbad1 : (FetchPrices imp g client nowCache1 t1 symbols).report.BadSymbols =
      (resolveSymbols imp g symbols).badSymbols := by rw [ho1]
  rw [hplug, herr1, hcalls1, hprices1, hbad1]
  have hcache : ∀ k, g1.cachePrices.get k =
      match lastLive imp t1 (resolveSymbols imp g symbols).availableSymbolMap res k with
      | some p => some p
      | none => g.cachePrices.get k := by
    intro k
    rw [← hg1]
    exact foldl_liveStep_get imp t1 _ k res (g.cachePrices, [])
  have hconf : g1.conf = g.conf := by rw [← hg1]
  have hrs : resolveSymbols imp g1 symbols = resolveSymbols imp g symbols :=
    resolveSymbols_congr imp g g1 (by rw [← hg1]) (by rw [← hg1]) symbols
  have hstored : ∀ v ∈ res, imp.NewFromString v.Price ≠ none →
      ∃ q w, g1.cachePrices.get v.Symbol = some q ∧ w ∈ res ∧ w.Symbol = v.Symbol ∧
        livePrice imp t1 (resolveSymbols imp g symbols).availableSymbolMap w = some q := by
    intro v hv hp
    obtain ⟨q, w, hl, hw, hws, hlp⟩ :=
      lastLive_of_parsed imp t1 (resolveSymbols imp g symbols).availableSymbolMap res v hv hp
    exact ⟨q, w, by rw [hcache v.Symbol, hl], hw, hws, hlp⟩
  have hentry : ∀ s ∈ (resolveSymbols imp g symbols).available,
      ∃ q w, g1.cachePrices.get s = some q ∧ w ∈ res ∧ w.Symbol = s ∧
        livePrice imp t1 (resolveSymbols imp g symbols).availableSymbolMap w = some q := by
    intro s hs
    obtain ⟨v, hv, hvs, hp⟩ := hans s hs
    obtain ⟨q, w, hget, hw, hws, hlp⟩ := hstored v hv hp
    rw [hvs] at hget hws
    exact ⟨q, w, hget, hw, hws, hlp⟩
  have hfresh : ∀ s ∈ (resolveSymbols imp g1 symbols).available, Unexpired g1 t2 s := by
    intro s hs
    rw [hrs] at hs
    obtain ⟨q, w, hget, _, _, hlp⟩ := hentry s hs
    refine ⟨q, hget, ?_⟩
    rw [livePrice_timestamp imp t1 _ w q hlp, hconf, int64_of_isInt64 hD]
    have hr : isInt64 (t2 - t1) := by
      unfold isInt64 at hD ⊢
      omega
    rw [int64_of_isInt64 hr]
    exact h1
  obtain ⟨ps, hmap, hout⟩ := FetchPrices_hit imp g1 t2 symbols (by rw [hrs]; exact hres) hfresh
  rw [hout client2 nowLive2, hrs]
  rw [hrs] at hmap
  have hnodup : (res.map fun v => v.Symbol).Nodup → ∀ v ∈ res, ∀ p,
      livePrice imp t1 (resolveSymbols imp g symbols).availableSymbolMap v = some p →
      g1.cachePrices.get v.Symbol = some p := by
    intro hnd v hv p hp
    have hparse : imp.NewFromString v.Price ≠ none := by
      intro hnone
      simp [livePrice, hnone] at hp
    obtain ⟨q, w, hget, hw, hws, hlp⟩ := hstored v hv hparse
    have hwv : w = v := List.inj_on_of_nodup_map hnd hw hv hws
    subst hwv
    rw [hget, ← hlp, hp]
  refine ⟨rfl, rfl, rfl, rfl, rfl, rfl, hmap, ?_, ?_, hnodup, ?_, ?_⟩
  · intro s hs
    obtain ⟨q, w, hget, hw, hws, hlp⟩ := hentry s hs
    exact ⟨w, hw, q, hws, hlp, hget, List.mem_filterMap.mpr ⟨w, hw, hlp⟩,
      livePrice_timestamp imp t1 _ w q hlp⟩
  · intro p hp
    have hmem : some p ∈ (resolveSymbols imp g symbols).available.map g1.cachePrices.get := by
      rw [← hmap]
      exact List.mem_map_of_mem some hp
    obtain ⟨s, hs, hget⟩ := List.mem_map.mp hmem
    obtain ⟨q, w, hget1, hw, _, hlp⟩ := hentry s hs
    rw [hget] at hget1
    cases hget1
    exact ⟨List.mem_filterMap.mpr ⟨w, hw, hlp⟩, livePrice_timestamp imp t1 _ w p hlp⟩
  · intro hperm hparse
    have hall := filterMap_map_some
      (livePrice imp t1 (resolveSymbols imp g symbols).availableSymbolMap) res
      (fun v hv => livePrice_ne_none imp t1 _ v (hparse v hv))
    have hl1 := congrArg List.length hmap
    have hl2 := congrArg List.length hall
    have hl3 := hperm.length_eq
    simp only [List.length_map] at hl1 hl2 hl3
    show ps.length = _
    omega
  · intro hsym hparse hnd
    have hall := filterMap_map_some
      (livePrice imp t1 (resolveSymbols imp g symbols).availableSymbolMap) res
      (fun v hv => livePrice_ne_none imp t1 _ v (hparse v hv))
    apply List.map_injective_iff.mpr (Option.some_injective _)
    show ps.map some = _
    rw [hmap, hall, ← hsym, List.map_map]
    apply List.map_congr_left
    intro v hv
    obtain ⟨p, hp⟩ := Option.ne_none_iff_exists'.mp
      (livePrice_ne_none imp t1 (resolveSymbols imp g symbols).availableSymbolMap v
        (hparse v hv))
    simp only [Function.comp]
    rw [hnodup (by rw [hsym]; exact hnd) v hv p hp, hp]

/-- Witness for C8: the refreshed sample plugin fetches `NTN/USD` and `ATN/USD` live
at time 1000 from a source that answers in reverse order, and is asked again at time
2000 while its source is down. -/
theorem FetchPrices_repeat_within_window_witness :
    (resolveSymbols sampleImports runRefreshed ["NTN/USD", "ATN/USD"]).available ≠ [] ∧
    (fetchPricesFromCache runRefreshed 1000
      (resolveSymbols sampleImports runRefreshed ["NTN/USD", "ATN/USD"]).available).2 ≠ none ∧
    clientReversed.FetchPrice
      (resolveSymbols sampleImports runRefreshed ["NTN/USD", "ATN/USD"]).available =
      Except.ok [{ Symbol := "ATN/USD", Price := "7" }, { Symbol := "NTN/USD", Price := "8" }] ∧
    isInt64 runRefreshed.conf.DataUpdateInterval ∧
    (0 : Int) ≤ 2000 - 1000 ∧ (2000 : Int) - 1000 ≤ runRefreshed.conf.DataUpdateInterval ∧
    (FetchPrices sampleImports runRefreshed clientReversed 1000 1000
      ["NTN/USD", "ATN/USD"]).report.Prices =
      [{ Timestamp := 1000, Symbol := "ATN/USD", Price := 7 },
       { Timestamp := 1000, Symbol := "NTN/USD", Price := 8 }] ∧
    (FetchPrices sampleImports
      (FetchPrices sampleImports runRefreshed clientReversed 1000 1000
        ["NTN/USD", "ATN/USD"]).plugin clientDown 2000 2000
      ["NTN/USD", "ATN/USD"]).err = none ∧
    (FetchPrices sampleImports
      (FetchPrices sampleImports runRefreshed clientReversed 1000 1000
        ["NTN/USD", "ATN/USD"]).plugin clientDown 2000 2000
      ["NTN/USD", "ATN/USD"]).clientCalls = [] ∧
    (FetchPrices sampleImports
      (FetchPrices sampleImports runRefreshed clientReversed 1000 1000
        ["NTN/USD", "ATN/USD"]).plugin clientDown 2000 2000
      ["NTN/USD", "ATN/USD"]).report.Prices =
      [{ Timestamp := 1000, Symbol := "NTN/USD", Price := 8 },
       { Timestamp := 1000, Symbol := "ATN/USD", Price := 7 }] :=
  ⟨by decide, by decide, rfl, by decide, by decide, by decide, by decide,
    (FetchPrices_repeat_within_window sampleImports runRefreshed clientReversed clientDown
      1000 1000 2000 2000 ["NTN/USD", "ATN/USD"]
      [{ Symbol := "ATN/USD", Price := "7" }, { Symbol := "NTN/USD", Price := "8" }]
      (by decide) (by decide) rfl (by decide) (by decide) (by decide)
      (by decide)).2.2.1,
    (FetchPrices_repeat_within_window sampleImports runRefreshed clientReversed clientDown
      1000 1000 2000 2000 ["NTN/USD", "ATN/USD"]
      [{ Symbol := "ATN/USD", Price := "7" }, { Symbol := "NTN/USD", Price := "8" }]
      (by decide) (by decide) rfl (by decide) (by decide) (by decide)
      (by decide)).2.2.2.1,
    by decide⟩

theorem resolveStep_of_empty (imp : Imports Dec) (g : TemplatePlugin Dec)
    (hempty : g.availableSymbols = []) (r : Resolved) (raw : String) :
    resolveStep imp g r raw =
      { r with badSymbols := r.badSymbols ++ badEntries imp g raw } := by
  have hhas : ∀ k, g.availableSymbols.has k = false := by
    intro k
    rw [hempty]
    rfl
  unfold resolveStep badEntries
  by_cases hsep : g.separatedStyle = true
  · simp [hsep, hhas]
  · by_cases herr : (imp.NoneSeparatedSymbol raw).2.isSome = true
    · simp [hsep, hhas, herr]
    · simp [hsep, hhas, herr]

theorem foldl_resolveStep_of_empty (imp : Imports Dec) (g : TemplatePlugin Dec)
    (hempty : g.availableSymbols = []) :
    ∀ (syms : List String) (r : Resolved),
      syms.foldl (resolveStep imp g) r =
        { r with badSymbols := r.badSymbols ++ (syms.map (badEntries imp g)).flatten } := by
  intro syms
  induction syms with
  | nil => intro r; simp
  | cons x rest ih =>
    intro r
    rw [List.foldl_cons, resolveStep_of_empty imp g hempty, ih]
    simp [List.append_assoc]

/-- With nothing available, `resolveSymbols` resolves nothing and lists the entries
of `badEntries` for each requested symbol, in request order. -/
theorem resolveSymbols_empty (imp : Imports Dec) (g : TemplatePlugin Dec)
    (hempty : g.availableSymbols = []) (symbols : List String) :
    resolveSymbols imp g symbols =
      { available := [], badSymbols := (symbols.map (badEntries imp g)).flatten,
        availableSymbolMap := [] } := by
  unfold resolveSymbols
  rw [foldl_resolveStep_of_empty imp g hempty]
  simp

theorem flatten_badEntries_of_no_failure (imp : Imports Dec) (g : TemplatePlugin Dec) :
    ∀ (symbols : List String), helperFailures imp g symbols = 0 →
      (symbols.map (badEntries imp g)).flatten = symbols := by
  intro symbols
  induction symbols with
  | nil => intro _; rfl
  | cons x rest ih =>
    intro h
    rw [helperFailures_cons] at h
    have hx : helperFailures imp g [x] = 0 := by omega
    have hrest : helperFailures imp g rest = 0 := by omega
    have hbx : badEntries imp g x = [x] := by
      unfold badEntries
      unfold helperFailures at hx
      by_cases hsep : g.separatedStyle = true
      · simp [hsep]
      · by_cases herr : (imp.NoneSeparatedSymbol x).2.isSome = true
        · simp [hsep, herr, List.filter] at hx
        · simp [hsep, herr]
    simp [hbx, ih hrest]

theorem mem_badEntries (imp : Imports Dec) (g : TemplatePlugin Dec) (raw : String) :
    raw ∈ badEntries imp g raw := by
  unfold badEntries
  by_cases hsep : g.separatedStyle = true
  · simp [hsep]
  · by_cases herr : (imp.NoneSeparatedSymbol raw).2.isSome = true
    · simp [hsep, herr]
    · simp [hsep, herr]

/-- C11 evaluated on the code: for a plugin whose `availableSymbols` is empty,
`resolveSymbols` returns an empty native list and every requested symbol is listed in
`badSymbols`; the list is the request itself when no requested symbol hits the error
branch (separated style, or `helpers.NoneSeparatedSymbol` succeeds on all), but a
symbol on which the helper returns an error in none-separated style is listed twice:
for the one-symbol request `[raw]` the result is `[raw, raw]`. -/
theorem resolveSymbols_of_no_symbols (imp : Imports Dec) (g : TemplatePlugin Dec)
    (symbols : List String) (hempty : g.availableSymbols = []) :
    (resolveSymbols imp g symbols).available = [] ∧
    (∀ raw ∈ symbols, raw ∈ (resolveSymbols imp g symbols).badSymbols) ∧
    (helperFailures imp g symbols = 0 → (resolveSymbols imp g symbols).badSymbols = symbols) ∧
    (resolveSymbols imp g symbols).badSymbols.length =
      symbols.length + helperFailures imp g symbols ∧
    (∀ raw, g.separatedStyle = false → (imp.NoneSeparatedSymbol raw).2 ≠ none →
      (resolveSymbols imp g [raw]).badSymbols = [raw, raw]) := by
  have hcount := resolveSymbols_count imp g symbols
  rw [resolveSymbols_empty imp g hempty] at hcount ⊢
  refine ⟨rfl, ?_, ?_, ?_, ?_⟩
  · intro raw hraw
    exact List.mem_flatten_of_mem (List.mem_map_of_mem _ hraw) (mem_badEntries imp g raw)
  · intro h
    exact flatten_badEntries_of_no_failure imp g symbols h
  · simpa using hcount
  · intro raw hsep herr
    have hsome : (imp.NoneSeparatedSymbol raw).2.isSome = true := by
      cases h : (imp.NoneSeparatedSymbol raw).2 with
      | none => exact absurd h herr
      | some e => rfl
    rw [resolveSymbols_empty imp g hempty]
    simp [badEntries, hsep, hsome]

/-- Witness for C11: the plugin as `NewTemplatePlugin` builds it, asked for the one
symbol `BTC-USD` on which the stand-in helper fails, lists it as bad twice. -/
theorem resolveSymbols_of_no_symbols_witness :
    freshPlugin.availableSymbols = [] ∧
    (resolveSymbols sampleImports freshPlugin ["BTC-USD"]).available = [] ∧
    (resolveSymbols sampleImports freshPlugin ["BTC-USD"]).badSymbols =
      ["BTC-USD", "BTC-USD"] :=
  ⟨rfl,
    (resolveSymbols_of_no_symbols sampleImports freshPlugin ["BTC-USD"] rfl).1,
    (resolveSymbols_of_no_symbols sampleImports freshPlugin ["BTC-USD"] rfl).2.2.2.2
      "BTC-USD" (by decide) (by decide)⟩

/-- The outcome of `FetchPrices` when no requested symbol resolves. -/
theorem FetchPrices_unresolved (imp : Imports Dec) (g : TemplatePlugin Dec)
    (client : common.DataSourceClient) (nowCache nowLive : Int) (symbols : List String)
    (hres : (resolveSymbols imp g symbols).available = []) :
    FetchPrices imp g client nowCache nowLive symbols =
      { report := { Prices := [], BadSymbols := (resolveSymbols imp g symbols).badSymbols },
        err := some "no available symbols", plugin := g, clientCalls := [] } := by
  have hlen : (resolveSymbols imp g symbols).available.length = 0 := by simp [hres]
  simp only [FetchPrices, hlen, if_true]

/-- Every `FetchPrices` call returns the plugin with only `cachePrices` possibly
changed. -/
theorem FetchPrices_frame (imp : Imports Dec) (g : TemplatePlugin Dec)
    (client : common.DataSourceClient) (nowCache nowLive : Int) (symbols : List String) :
    (FetchPrices imp g client nowCache nowLive symbols).plugin =
      { g with cachePrices :=
          (FetchPrices imp g client nowCache nowLive symbols).plugin.cachePrices } := by
  by_cases hres : (resolveSymbols imp g symbols).available = []
  · rw [FetchPrices_unresolved imp g client nowCache nowLive symbols hres]
  · by_cases hall : ∀ s ∈ (resolveSymbols imp g symbols).available, Unexpired g nowCache s
    · obtain ⟨ps, _, hout⟩ := FetchPrices_hit imp g nowCache symbols hres hall
      rw [hout client nowLive]
    · have hex : ∃ s ∈ (resolveSymbols imp g symbols).available, ¬ Unexpired g nowCache s := by
        push_neg at hall
        exact hall
      have hm := (cacheLoop_of_expired g nowCache _ [] hex).2
      cases hc : client.FetchPrice (resolveSymbols imp g symbols).available with
      | error e =>
        rw [FetchPrices_live_error imp g client nowCache nowLive symbols e hres hm hc]
      | ok res =>
        rw [FetchPrices_live imp g client nowCache nowLive symbols res hres hm hc]

/-- C12: a plugin on which `State` has not yet succeeded, as `NewTemplatePlugin`
builds it, is unresolved. For every request list, every helper and every client,
`FetchPrices` returns the error "no available symbols" and a report without prices
whose `BadSymbols` contains every requested symbol; `client.FetchPrice` is not
invoked and the plugin, with its empty `cachePrices`, is left as it was. -/
theorem FetchPrices_before_State (imp : Imports Dec) (conf : types.PluginConfig)
    (version : String) (client : common.DataSourceClient) (nowCache nowLive : Int)
    (symbols : List String) :
    (FetchPrices imp (NewTemplatePlugin Dec conf version) client nowCache nowLive
      symbols).err = some "no available symbols" ∧
    (FetchPrices imp (NewTemplatePlugin Dec conf version) client nowCache nowLive
      symbols).report.Prices = [] ∧
    (∀ s ∈ symbols,
      s ∈ (FetchPrices imp (NewTemplatePlugin Dec conf version) client nowCache nowLive
        symbols).report.BadSymbols) ∧
    (FetchPrices imp (NewTemplatePlugin Dec conf version) client nowCache nowLive
      symbols).clientCalls = [] ∧
    (FetchPrices imp (NewTemplatePlugin Dec conf version) client nowCache nowLive
      symbols).plugin = NewTemplatePlugin Dec conf version ∧
    (FetchPrices imp (NewTemplatePlugin Dec conf version) client nowCache nowLive
      symbols).plugin.cachePrices = [] := by
  have hempty : (NewTemplatePlugin Dec conf version).availableSymbols = [] := rfl
  have hr := resolveSymbols_empty imp (NewTemplatePlugin Dec conf version) hempty symbols
  have hres : (resolveSymbols imp (NewTemplatePlugin Dec conf version) symbols).available =
      [] := by rw [hr]
  rw [FetchPrices_unresolved imp _ client nowCache nowLive symbols hres, hr]
  refine ⟨rfl, rfl, ?_, rfl, rfl, rfl⟩
  intro s hs
  exact List.mem_flatten_of_mem (List.mem_map_of_mem _ hs) (mem_badEntries imp _ s)

/-- C14: `availableSymbols` and `separatedStyle` are mutated only by a successful
state refresh. A `State` call whose `client.AvailableSymbols` fails returns that error
and leaves the plugin as it was, and every `FetchPrices` call, successful or failing,
returns the plugin with `availableSymbols` and `separatedStyle` (and `conf`,
`version`) as before. -/
theorem symbols_and_style_change_only_on_refresh (imp : Imports Dec)
    (g : TemplatePlugin Dec) (client : common.DataSourceClient)
    (rangeOrder : List String → List String) (nowCache nowLive : Int)
    (symbols : List String) :
    (∀ e, client.AvailableSymbols = Except.error e →
      (State g client rangeOrder).2.1 = some e ∧
      (State g client rangeOrder).2.2 = g) ∧
    (FetchPrices imp g client nowCache nowLive symbols).plugin.availableSymbols =
      g.availableSymbols ∧
    (FetchPrices imp g client nowCache nowLive symbols).plugin.separatedStyle =
      g.separatedStyle ∧
    (FetchPrices imp g client nowCache nowLive symbols).plugin.conf = g.conf ∧
    (FetchPrices imp g client nowCache nowLive symbols).plugin.version = g.version := by
  refine ⟨?_, ?_, ?_, ?_, ?_⟩
  · intro e he
    simp only [State, he, and_self]
  · rw [FetchPrices_frame]
  · rw [FetchPrices_frame]
  · rw [FetchPrices_frame]
  · rw [FetchPrices_frame]

/-- C19: a failed live fetch is atomic. When some resolved native symbol has no
unexpired cache entry and `client.FetchPrice` returns an error, `FetchPrices` returns
that error with an empty report, without prices and without `BadSymbols` whatever the
resolver's bad list holds, and the plugin with its `cachePrices` is left as it was. -/
theorem FetchPrices_live_failure_atomic (imp : Imports Dec) (g : TemplatePlugin Dec)
    (client : common.DataSourceClient) (nowCache nowLive : Int) (symbols : List String)
    (e : GoError)
    (hmiss : ∃ s ∈ (resolveSymbols imp g symbols).available,
      g.cachePrices.get s = none ∨
      ∃ pr, g.cachePrices.get s = some pr ∧
        int64 (nowCache - pr.Timestamp) > int64 g.conf.DataUpdateInterval)
    (hc : client.FetchPrice (resolveSymbols imp g symbols).available = Except.error e) :
    (FetchPrices imp g client nowCache nowLive symbols).err = some e ∧
    (FetchPrices imp g client nowCache nowLive symbols).report.Prices = [] ∧
    (FetchPrices imp g client nowCache nowLive symbols).report.BadSymbols = [] ∧
    (FetchPrices imp g client nowCache nowLive symbols).plugin = g ∧
    (FetchPrices imp g client nowCache nowLive symbols).plugin.cachePrices =
      g.cachePrices := by
  obtain ⟨hres, hm⟩ := cache_miss_of_expired g nowCache _ hmiss
  rw [FetchPrices_live_error imp g client nowCache nowLive symbols e hres hm hc]
  exact ⟨rfl, rfl, rfl, rfl, rfl⟩

/-- Witness for C19: the sample plugin asked for the uncached `ATN/USD` and the unknown
`XYZ/USD` while its source is down: the resolver lists `XYZ/USD` as bad, the report
does not. -/
theorem FetchPrices_live_failure_atomic_witness :
    (resolveSymbols sampleImports sampleCached ["ATN/USD", "XYZ/USD"]).badSymbols =
      ["XYZ/USD"] ∧
    clientDown.FetchPrice
      (resolveSymbols sampleImports sampleCached ["ATN/USD", "XYZ/USD"]).available =
      Except.error "connection refused" ∧
    (FetchPrices sampleImports sampleCached clientDown 2000 2001
      ["ATN/USD", "XYZ/USD"]).err = some "connection refused" ∧
    (FetchPrices sampleImports sampleCached clientDown 2000 2001
      ["ATN/USD", "XYZ/USD"]).report = { Prices := [], BadSymbols := [] } ∧
    (FetchPrices sampleImports sampleCached clientDown 2000 2001
      ["ATN/USD", "XYZ/USD"]).plugin = sampleCached :=
  ⟨by decide, rfl,
    (FetchPrices_live_failure_atomic sampleImports sampleCached clientDown 2000 2001
      ["ATN/USD", "XYZ/USD"] "connection refused"
      ⟨"ATN/USD", by decide, Or.inl (by decide)⟩ rfl).1,
    by decide,
    (FetchPrices_live_failure_atomic sampleImports sampleCached clientDown 2000 2001
      ["ATN/USD", "XYZ/USD"] "connection refused"
      ⟨"ATN/USD", by decide, Or.inl (by decide)⟩ rfl).2.2.2.1⟩

theorem foldl_liveStep_filter (imp : Imports Dec) (now : Int) (symMap : GoMap String) :
    ∀ (res : List common.Price) (st : GoMap (types.Price Dec) × List (types.Price Dec)),
      (res.filter fun v => (imp.NewFromString v.Price).isSome).foldl
          (liveStep imp now symMap) st =
        res.foldl (liveStep imp now symMap) st := by
  intro res
  induction res with
  | nil => intro st; rfl
  | cons v rest ih =>
    intro st
    cases hp : imp.NewFromString v.Price with
    | none =>
      have hstep : liveStep imp now symMap st v = st := by simp [liveStep, hp]
      simp only [List.filter, hp, Option.isSome_none, List.foldl_cons, hstep]
      exact ih st
    | some dec =>
      simp only [List.filter, hp, Option.isSome_some, List.foldl_cons]
      exact ih _

theorem filterMap_livePrice_filter (imp : Imports Dec) (now : Int) (symMap : GoMap String)
    (res : List common.Price) :
    (res.filter fun v => (imp.NewFromString v.Price).isSome).filterMap
        (livePrice imp now symMap) =
      res.filterMap (livePrice imp now symMap) := by
  have h1 := foldl_liveStep_prices imp now symMap
    (res.filter fun v => (imp.NewFromString v.Price).isSome) ([], [])
  have h2 := foldl_liveStep_prices imp now symMap res ([], [])
  rw [foldl_liveStep_filter] at h1
  rw [h1] at h2
  simpa using h2

/-- C20: a malformed price is skipped without failing the fetch. In a live fetch
answered with `res`, `FetchPrices` returns a nil error; the report holds exactly the
prices built from the entries whose price string parses; the whole outcome (report
and cache) is the one the same answer without its unparsable entries would give; every
entry that parses is in the report and the cache afterwards holds a price of this
answer under its native symbol; and a native symbol all of whose entries are
unparsable keeps its cache entry as before the call. -/
theorem FetchPrices_skips_malformed_price (imp : Imports Dec) (g : TemplatePlugin Dec)
    (client : common.DataSourceClient) (nowCache nowLive : Int) (symbols : List String)
    (res : List common.Price)
    (hmiss : ∃ s ∈ (resolveSymbols imp g symbols).available,
      g.cachePrices.get s = none ∨
      ∃ pr, g.cachePrices.get s = some pr ∧
        int64 (nowCache - pr.Timestamp) > int64 g.conf.DataUpdateInterval)
    (hc : client.FetchPrice (resolveSymbols imp g symbols).available = Except.ok res) :
    (FetchPrices imp g client nowCache nowLive symbols).err = none ∧
    (FetchPrices imp g client nowCache nowLive symbols).report.Prices =
      res.filterMap
        (livePrice imp nowLive (resolveSymbols imp g symbols).availableSymbolMap) ∧
    (∀ v ∈ res, imp.NewFromString v.Price = none →
      livePrice imp nowLive (resolveSymbols imp g symbols).availableSymbolMap v = none) ∧
    (∀ client1 : common.DataSourceClient,
      client1.FetchPrice (resolveSymbols imp g symbols).available =
        Except.ok (res.filter fun v => (imp.NewFromString v.Price).isSome) →
      FetchPrices imp g client1 nowCache nowLive symbols =
        FetchPrices imp g client nowCache nowLive symbols) ∧
    (∀ v ∈ res, ∀ dec, imp.NewFromString v.Price = some dec →
      ({ Timestamp := nowLive,
         Symbol := (resolveSymbols imp g symbols).availableSymbolMap.getD v.Symbol "",
         Price := dec } : types.Price Dec) ∈
        (FetchPrices imp g client nowCache nowLive symbols).report.Prices ∧
      ∃ q w, (FetchPrices imp g client nowCache nowLive symbols).plugin.cachePrices.get
            v.Symbol = some q ∧
        w ∈ res ∧ w.Symbol = v.Symbol ∧
        livePrice imp nowLive (resolveSymbols imp g symbols).availableSymbolMap w =
          some q) ∧
    (∀ k, (∀ v ∈ res, v.Symbol = k → imp.NewFromString v.Price = none) →
      (FetchPrices imp g client nowCache nowLive symbols).plugin.cachePrices.get k =
        g.cachePrices.get k) := by
  obtain ⟨hres, hm⟩ := cache_miss_of_expired g nowCache _ hmiss
  have ho := FetchPrices_live imp g client nowCache nowLive symbols res hres hm hc
  refine ⟨by rw [ho], by rw [ho], ?_, ?_, ?_, ?_⟩
  · intro v _ hp
    simp [livePrice, hp]
  · intro client1 hc1
    rw [ho, FetchPrices_live imp g client1 nowCache nowLive symbols _ hres hm hc1,
      filterMap_livePrice_filter, foldl_liveStep_filter]
  · intro v hv dec hp
    have hlp : livePrice imp nowLive (resolveSymbols imp g symbols).availableSymbolMap v =
        some { Timestamp := nowLive,
               Symbol := (resolveSymbols imp g symbols).availableSymbolMap.getD v.Symbol "",
               Price := dec } := by
      simp [livePrice, hp]
    obtain ⟨q, w, hl, hw, hws, hwp⟩ :=
      lastLive_of_parsed imp nowLive (resolveSymbols imp g symbols).availableSymbolMap res v hv
        (by rw [hp]; exact Option.some_ne_none dec)
    rw [ho]
    refine ⟨List.mem_filterMap.mpr ⟨v, hv, hlp⟩, q, w, ?_, hw, hws, hwp⟩
    simp only [foldl_liveStep_get, hl]
  · intro k hk
    have hl : lastLive imp nowLive (resolveSymbols imp g symbols).availableSymbolMap res
        k = none := by
      cases hl : lastLive imp nowLive (resolveSymbols imp g symbols).availableSymbolMap res
          k with
      | none => rfl
      | some q =>
        obtain ⟨w, hw, hsym, hlp⟩ := lastLive_some imp nowLive _ k q res hl
        simp [livePrice, hk w hw hsym] at hlp
    rw [ho]
    simp only [foldl_liveStep_get, hl]

/-- Witness for C20: the sample plugin, with `NTN/USD` cached at 1000, fetches
`NTN/USD` and `ATN/USD` live from a source whose `NTN/USD` price does not parse. -/
theorem FetchPrices_skips_malformed_price_witness :
    sampleImports.NewFromString "n/a" = none ∧
    (FetchPrices sampleImports sampleCached clientMalformed 2000 2001
      ["NTN/USD", "ATN/USD"]).err = none ∧
    (FetchPrices sampleImports sampleCached clientMalformed 2000 2001
      ["NTN/USD", "ATN/USD"]).report.Prices =
      [{ Timestamp := 2001, Symbol := "ATN/USD", Price := 7 }] ∧
    (FetchPrices sampleImports sampleCached clientMalformed 2000 2001
      ["NTN/USD", "ATN/USD"]).plugin.cachePrices.get "NTN/USD" =
      sampleCached.cachePrices.get "NTN/USD" :=
  ⟨by decide,
    (FetchPrices_skips_malformed_price sampleImports sampleCached clientMalformed 2000 2001
      ["NTN/USD", "ATN/USD"]
      [{ Symbol := "NTN/USD", Price := "n/a" }, { Symbol := "ATN/USD", Price := "7" }]
      ⟨"ATN/USD", by decide, Or.inl (by decide)⟩ rfl).1,
    by decide,
    (FetchPrices_skips_malformed_price sampleImports sampleCached clientMalformed 2000 2001
      ["NTN/USD", "ATN/USD"]
      [{ Symbol := "NTN/USD", Price := "n/a" }, { Symbol := "ATN/USD", Price := "7" }]
      ⟨"ATN/USD", by decide, Or.inl (by decide)⟩ rfl).2.2.2.2.2 "NTN/USD" (by decide)⟩

theorem MapWithin.extend (r : Resolved) (n raw : String) (bad : List String)
    (h : MapWithin r) :
    MapWithin { available := r.available ++ [n], badSymbols := bad,
                availableSymbolMap := r.availableSymbolMap.set n raw } := by
  intro k hk
  simp only [GoMap.get_set] at hk
  by_cases hkn : k = n
  · subst hkn
    simp
  · simp only [hkn, if_false] at hk
    exact List.mem_append_left _ (h k hk)

theorem resolveStep_mapWithin (imp : Imports Dec) (g : TemplatePlugin Dec) (r : Resolved)
    (raw : String) (h : MapWithin r) : MapWithin (resolveStep imp g r raw) := by
  unfold resolveStep
  by_cases hsep : g.separatedStyle = true
  · by_cases hhas : g.availableSymbols.has raw = true
    · simp only [hsep, if_true, hhas, Bool.not_true, Bool.false_eq_true, if_false]
      exact MapWithin.extend r raw raw _ h
    · simp only [Bool.not_eq_true] at hhas
      simp only [hsep, if_true, hhas, Bool.not_false]
      exact h
  · by_cases hhas : g.availableSymbols.has (imp.NoneSeparatedSymbol raw).1 = true
    · by_cases herr : (imp.NoneSeparatedSymbol raw).2.isSome = true
      · simp only [hsep, Bool.false_eq_true, if_false, hhas, Bool.not_true, herr, if_true]
        exact MapWithin.extend r _ raw _ h
      · simp only [hsep, Bool.false_eq_true, if_false, hhas, Bool.not_true, herr]
        exact MapWithin.extend r _ raw _ h
    · simp only [Bool.not_eq_true] at hhas
      by_cases herr : (imp.NoneSeparatedSymbol raw).2.isSome = true
      · simp only [hsep, Bool.false_eq_true, if_false, hhas, Bool.not_false, herr, if_true]
        exact h
      · simp only [hsep, Bool.false_eq_true, if_false, hhas, Bool.not_false, herr, if_true]
        exact h

theorem foldl_resolveStep_mapWithin (imp : Imports Dec) (g : TemplatePlugin Dec) :
    ∀ (syms : List String) (r : Resolved), MapWithin r →
      MapWithin (syms.foldl (resolveStep imp g) r) := by
  intro syms
  induction syms with
  | nil => intro r h; exact h
  | cons x rest ih =>
    intro r h
    exact ih _ (resolveStep_mapWithin imp g r x h)

/-- The resolver's map has no entry for a symbol outside the native list, so the
read `availableSymMap[k]` gives the empty string for it. -/
theorem resolveSymbols_getD_of_not_mem (imp : Imports Dec) (g : TemplatePlugin Dec)
    (symbols : List String) (k : String)
    (hk : k ∉ (resolveSymbols imp g symbols).available) :
    (resolveSymbols imp g symbols).availableSymbolMap.getD k "" = "" := by
  have hin : MapWithin (resolveSymbols imp g symbols) :=
    foldl_resolveStep_mapWithin imp g symbols _ (fun n hn => absurd rfl hn)
  have hnone : (resolveSymbols imp g symbols).availableSymbolMap.get k = none := by
    by_contra hne
    exact hk (hin k hne)
  simp [GoMap.getD, hnone]

/-- The resolver's map sends a native symbol of the native list to a requested symbol
whose native form it is. -/
theorem resolveSymbols_getD_of_mem (imp : Imports Dec) (g : TemplatePlugin Dec)
    (symbols : List String) (n : String)
    (hn : n ∈ (resolveSymbols imp g symbols).available) :
    g.availableSymbols.has n = true ∧
    (resolveSymbols imp g symbols).availableSymbolMap.getD n "" ∈ symbols ∧
    nativeForm imp g ((resolveSymbols imp g symbols).availableSymbolMap.getD n "") = n := by
  have hinv : ResolveSound imp g (fun x => x ∈ symbols) (resolveSymbols imp g symbols) :=
    foldl_resolveStep_sound imp g _ symbols _ (fun x hx => hx)
      (fun m hm => by cases hm)
  obtain ⟨hhas, raw, hraw, hget, hnat⟩ := hinv n hn
  simp only [GoMap.getD, hget, Option.getD_some]
  exact ⟨hhas, hraw, hnat⟩

theorem livePrice_symbol (imp : Imports Dec) (now : Int) (symMap : GoMap String)
    (v : common.Price) (p : types.Price Dec) (h : livePrice imp now symMap v = some p) :
    p.Symbol = symMap.getD v.Symbol "" ∧ imp.NewFromString v.Price = some p.Price := by
  unfold livePrice at h
  cases hp : imp.NewFromString v.Price with
  | none => simp [hp] at h
  | some dec =>
    simp only [hp, Option.map_some', Option.some.injEq] at h
    rw [← h]
    exact ⟨rfl, rfl⟩

/-- C13 at its failing input: the refreshed sample plugin is a reachable state; asked
for `NTN/USD` while its client answers with an entry for `XYZ`, it returns a nil error
and a report whose one price has the empty `Symbol`, which is no symbol of the
request. The empty label is also stored: when the client answers the same request
with an entry for the known symbol `ATN/USD`, that entry is cached with the empty
`Symbol`, and a later request for `ATN/USD` is served from the cache with it. -/
theorem FetchPrices_reports_empty_symbol :
    Reachable sampleImports runRefreshed ∧
    (FetchPrices sampleImports runRefreshed clientStray 1000 1000 ["NTN/USD"]).err = none ∧
    (FetchPrices sampleImports runRefreshed clientStray 1000 1000
      ["NTN/USD"]).report.Prices = [{ Timestamp := 1000, Symbol := "", Price := 7 }] ∧
    "" ∉ ["NTN/USD"] ∧
    Reachable sampleImports runStrayCached ∧
    runStrayCached.cachePrices.get "ATN/USD" =
      some { Timestamp := 1000, Symbol := "", Price := 7 } ∧
    (FetchPrices sampleImports runStrayCached clientSeven 1500 1500 ["ATN/USD"]).err = none ∧
    (FetchPrices sampleImports runStrayCached clientSeven 1500 1500
      ["ATN/USD"]).clientCalls = [] ∧
    (FetchPrices sampleImports runStrayCached clientSeven 1500 1500
      ["ATN/USD"]).report.Prices = [{ Timestamp := 1000, Symbol := "", Price := 7 }] ∧
    "" ∉ ["ATN/USD"] :=
  ⟨Reachable.state _ clientSeven id (Reachable.new sampleConf "v0.0.2")
      (fun l => List.Perm.refl l),
    by decide, by decide, by decide,
    Reachable.fetch _ clientOther 1000 1000 ["NTN/USD"]
      (Reachable.state _ clientSeven id (Reachable.new sampleConf "v0.0.2")
        (fun l => List.Perm.refl l)),
    by decide, by decide, by decide, by decide, by decide⟩

/-- The labels `FetchPrices` gives: in a successful report fetched live, every price
is built from an entry of the client's answer; if that entry names a resolved native
symbol, the price's `Symbol` is a symbol of the request whose native form is that
native symbol (in separated style the native symbol itself), and if it names any
other symbol the map read at line 96 finds nothing and the `Symbol` is empty. In a
report served from the cache every price is the cache entry of a resolved native
symbol, with the `Symbol` it was stored with. -/
theorem FetchPrices_symbol_labels (imp : Imports Dec) (g : TemplatePlugin Dec)
    (client : common.DataSourceClient) (nowCache nowLive : Int) (symbols : List String)
    (hok : (FetchPrices imp g client nowCache nowLive symbols).err = none) :
    ((FetchPrices imp g client nowCache nowLive symbols).clientCalls ≠ [] →
      ∃ res, client.FetchPrice (resolveSymbols imp g symbols).available = Except.ok res ∧
      ∀ p ∈ (FetchPrices imp g client nowCache nowLive symbols).report.Prices,
        ∃ v ∈ res,
          livePrice imp nowLive (resolveSymbols imp g symbols).availableSymbolMap v =
            some p ∧
          (v.Symbol ∈ (resolveSymbols imp g symbols).available →
            p.Symbol ∈ symbols ∧ nativeForm imp g p.Symbol = v.Symbol ∧
            (g.separatedStyle = true → p.Symbol = v.Symbol)) ∧
          (v.Symbol ∉ (resolveSymbols imp g symbols).available → p.Symbol = "")) ∧
    ((FetchPrices imp g client nowCache nowLive symbols).clientCalls = [] →
      ∀ p ∈ (FetchPrices imp g client nowCache nowLive symbols).report.Prices,
        ∃ s ∈ (resolveSymbols imp g symbols).available, g.cachePrices.get s = some p) := by
  by_cases hres : (resolveSymbols imp g symbols).available = []
  · rw [FetchPrices_unresolved imp g client nowCache nowLive symbols hres] at hok
    cases hok
  · by_cases hall : ∀ s ∈ (resolveSymbols imp g symbols).available, Unexpired g nowCache s
    · obtain ⟨ps, hmap, hout⟩ := FetchPrices_hit imp g nowCache symbols hres hall
      rw [hout client nowLive]
      refine ⟨fun h => absurd rfl h, fun _ p hp => ?_⟩
      have hmem : some p ∈ (resolveSymbols imp g symbols).available.map g.cachePrices.get := by
        rw [← hmap]
        exact List.mem_map_of_mem some hp
      obtain ⟨s, hs, hget⟩ := List.mem_map.mp hmem
      exact ⟨s, hs, hget⟩
    · have hex : ∃ s ∈ (resolveSymbols imp g symbols).available, ¬ Unexpired g nowCache s := by
        push_neg at hall
        exact hall
      have hm := (cacheLoop_of_expired g nowCache _ [] hex).2
      cases hc : client.FetchPrice (resolveSymbols imp g symbols).available with
      | error e =>
        rw [FetchPrices_live_error imp g client nowCache nowLive symbols e hres hm hc] at hok
        cases hok
      | ok res =>
        rw [FetchPrices_live imp g client nowCache nowLive symbols res hres hm hc]
        refine ⟨fun _ => ⟨res, rfl, fun p hp => ?_⟩, fun h => by cases h⟩
        obtain ⟨v, hv, hlp⟩ := List.mem_filterMap.mp hp
        have hsym := (livePrice_symbol imp nowLive _ v p hlp).1
        refine ⟨v, hv, hlp, ?_, ?_⟩
        · intro hin
          obtain ⟨_, hmem, hnat⟩ := resolveSymbols_getD_of_mem imp g symbols v.Symbol hin
          rw [← hsym] at hmem hnat
          refine ⟨hmem, hnat, ?_⟩
          intro hsep
          simpa [nativeForm, hsep] using hnat
        · intro hout
          rw [hsym]
          exact resolveSymbols_getD_of_not_mem imp g symbols v.Symbol hout

/-- The labels of the live report of the refreshed sample plugin against the source
that answers with the stray symbol `XYZ`. -/
theorem FetchPrices_symbol_labels_witness :
    (FetchPrices sampleImports runRefreshed clientStray 1000 1000 ["NTN/USD"]).err = none ∧
    (FetchPrices sampleImports runRefreshed clientStray 1000 1000
      ["NTN/USD"]).clientCalls ≠ [] ∧
    (∃ res, clientStray.FetchPrice
        (resolveSymbols sampleImports runRefreshed ["NTN/USD"]).available = Except.ok res ∧
      ∀ p ∈ (FetchPrices sampleImports runRefreshed clientStray 1000 1000
          ["NTN/USD"]).report.Prices,
        ∃ v ∈ res,
          livePrice sampleImports 1000
            (resolveSymbols sampleImports runRefreshed ["NTN/USD"]).availableSymbolMap v =
            some p ∧
          (v.Symbol ∈ (resolveSymbols sampleImports runRefreshed ["NTN/USD"]).available →
            p.Symbol ∈ ["NTN/USD"] ∧ nativeForm sampleImports runRefreshed p.Symbol = v.Symbol ∧
            (runRefreshed.separatedStyle = true → p.Symbol = v.Symbol)) ∧
          (v.Symbol ∉ (resolveSymbols sampleImports runRefreshed ["NTN/USD"]).available →
            p.Symbol = "")) :=
  ⟨by decide, by decide,
    (FetchPrices_symbol_labels sampleImports runRefreshed clientStray 1000 1000 ["NTN/USD"]
      (by decide)).1 (by decide)⟩

/-- After a successful `State`, `cachePrices` is as before, and if the set is not
empty `separatedStyle` tells whether the first visited symbol, a member of the set,
contains the separator. -/
theorem State_ok (g : TemplatePlugin Dec) (client : common.DataSourceClient)
    (rangeOrder : List String → List String) (symbols : List String)
    (hc : client.AvailableSymbols = Except.ok symbols)
    (hperm : ∀ l, (rangeOrder l).Perm l) :
    (State g client rangeOrder).2.2.cachePrices = g.cachePrices ∧
    ((State g client rangeOrder).2.2.availableSymbols ≠ [] →
      ∃ k, (State g client rangeOrder).2.2.availableSymbols.has k = true ∧
        (State g client rangeOrder).2.2.separatedStyle = strings.Contains k "/") := by
  simp only [State, hc]
  generalize (List.foldl (fun m s => GoMap.set m s ())
    (if g.availableSymbols.len != 0 then
      List.foldl (fun m s => GoMap.delete m s) g.availableSymbols symbols
    else g.availableSymbols) symbols) = m2
  refine ⟨trivial, ?_⟩
  intro hne
  cases hk : rangeOrder m2.keys with
  | nil =>
    have hl := (hperm m2.keys).length_eq
    rw [hk] at hl
    cases m2 with
    | nil => exact absurd rfl hne
    | cons e rest => simp [GoMap.keys] at hl
  | cons k rest =>
    refine ⟨k, ?_, ?_⟩
    · rw [GoMap.has_iff_mem_keys]
      apply (hperm m2.keys).subset
      rw [hk]
      exact List.mem_cons_self k rest
    · simp [styleLoop]

theorem defaults_contain_separator :
    ∀ k ∈ defaultForex ++ defaultCrypto, strings.Contains k "/" = true := by
  decide

theorem has_of_nil (k : String) : GoMap.has ([] : GoMap Unit) k = false := rfl

theorem ne_nil_of_has (m : GoMap Unit) (k : String) (h : m.has k = true) : m ≠ [] := by
  intro hm
  rw [hm] at h
  cases h

/-- A state refresh of the template plugin, from a plugin that knows nothing or the
default symbols, leaves it knowing exactly the default symbols in separated style. -/
theorem State_template_serving (sim : Simulator Dec) (g : TemplatePlugin Dec)
    (rangeOrder : List String → List String) (hperm : ∀ l, (rangeOrder l).Perm l)
    (hg : g.availableSymbols = [] ∨ Serving g) :
    Serving (State g (TemplateClient.client sim) rangeOrder).2.2 := by
  have hc : (TemplateClient.client sim).AvailableSymbols =
      Except.ok (defaultForex ++ defaultCrypto) := rfl
  have hhas : ∀ k, (State g (TemplateClient.client sim) rangeOrder).2.2.availableSymbols.has k
      = true ↔ k ∈ defaultForex ++ defaultCrypto := by
    intro k
    rw [State_has g _ rangeOrder _ hc k]
    rcases hg with hnil | hserv
    · rw [hnil, has_of_nil]
      simp
    · have := hserv.1 k
      constructor
      · intro h
        rcases Bool.or_eq_true _ _ ▸ h with h1 | h2
        · exact this.mp h1
        · exact of_decide_eq_true h2
      · intro h
        simp [this.mpr h]
  refine ⟨hhas, ?_⟩
  have hne : (State g (TemplateClient.client sim) rangeOrder).2.2.availableSymbols ≠ [] :=
    ne_nil_of_has _ "EUR/USD" ((hhas "EUR/USD").mpr (by decide))
  obtain ⟨k, hk, hstyle⟩ := (State_ok g _ rangeOrder _ hc hperm).2 hne
  rw [hstyle]
  exact defaults_contain_separator k ((hhas k).mp hk)

theorem foldl_resolveStep_known (imp : Imports Dec) (g : TemplatePlugin Dec)
    (hsep : g.separatedStyle = true) :
    ∀ (syms : List String) (r : Resolved), (∀ s ∈ syms, g.availableSymbols.has s = true) →
      (syms.foldl (resolveStep imp g) r).available = r.available ++ syms ∧
      (syms.foldl (resolveStep imp g) r).badSymbols = r.badSymbols := by
  intro syms
  induction syms with
  | nil => intro r _; simp
  | cons x rest ih =>
    intro r h
    have hx := h x (List.mem_cons_self x rest)
    obtain ⟨h1, h2⟩ := ih (resolveStep imp g r x) (fun s hs => h s (List.mem_cons_of_mem x hs))
    rw [List.foldl_cons, h1, h2]
    simp [resolveStep, hsep, hx]

/-- In separated style a request of known symbols resolves to itself, with no bad
symbol. -/
theorem resolveSymbols_known (imp : Imports Dec) (g : TemplatePlugin Dec)
    (hsep : g.separatedStyle = true) (symbols : List String)
    (h : ∀ s ∈ symbols, g.availableSymbols.has s = true) :
    (resolveSymbols imp g symbols).available = symbols ∧
    (resolveSymbols imp g symbols).badSymbols = [] := by
  obtain ⟨h1, h2⟩ := foldl_resolveStep_known imp g hsep symbols
    { available := [], badSymbols := [], availableSymbolMap := [] } h
  exact ⟨by simpa [resolveSymbols] using h1, by simpa [resolveSymbols] using h2⟩

/-- In separated style the resolver's map sends every resolved symbol to itself. -/
theorem resolveSymbols_getD_separated (imp : Imports Dec) (g : TemplatePlugin Dec)
    (hsep : g.separatedStyle = true) (symbols : List String) (n : String)
    (hn : n ∈ (resolveSymbols imp g symbols).available) :
    (resolveSymbols imp g symbols).availableSymbolMap.getD n "" = n := by
  obtain ⟨_, _, hnf⟩ := resolveSymbols_getD_of_mem imp g symbols n hn
  simpa [nativeForm, hsep] using hnf

theorem map_eq_of_map_some {α β γ : Type} (get : α → Option β) (f : β → γ) (h : α → γ) :
    ∀ (ps : List β) (syms : List α), ps.map some = syms.map get →
      (∀ s ∈ syms, ∀ p, get s = some p → f p = h s) → ps.map f = syms.map h := by
  intro ps
  induction ps with
  | nil =>
    intro syms he _
    cases syms with
    | nil => rfl
    | cons s rest => simp at he
  | cons p ps ih =>
    intro syms he hf
    cases syms with
    | nil => simp at he
    | cons s rest =>
      simp only [List.map_cons, List.cons.injEq] at he ⊢
      exact ⟨hf s (List.mem_cons_self s rest) p he.1.symm,
        ih rest he.2 (fun t ht => hf t (List.mem_cons_of_mem s ht))⟩

/-- A `FetchPrices` call of the template plugin keeps every cache entry labelled with
its key and priced at the simulated price. -/
theorem FetchPrices_template_simCache (sim : Simulator Dec) (imp : Imports Dec)
    (hround : ∀ s, imp.NewFromString (sim.DecimalString (sim.ResolveSimulatedPrice s)) =
      some (sim.ResolveSimulatedPrice s))
    (g : TemplatePlugin Dec) (nowCache nowLive : Int) (symbols : List String)
    (hcache : SimCache sim g) (hg : g.availableSymbols = [] ∨ Serving g) :
    SimCache sim
      (FetchPrices imp g (TemplateClient.client sim) nowCache nowLive symbols).plugin := by
  by_cases hres : (resolveSymbols imp g symbols).available = []
  · rw [FetchPrices_unresolved imp g _ nowCache nowLive symbols hres]
    exact hcache
  · have hserv : Serving g := by
      rcases hg with hnil | hs
      · exact absurd (by rw [resolveSymbols_empty imp g hnil]) hres
      · exact hs
    by_cases hall : ∀ s ∈ (resolveSymbols imp g symbols).available, Unexpired g nowCache s
    · obtain ⟨ps, _, hout⟩ := FetchPrices_hit imp g nowCache symbols hres hall
      rw [hout _ nowLive]
      exact hcache
    · have hex : ∃ s ∈ (resolveSymbols imp g symbols).available, ¬ Unexpired g nowCache s := by
        push_neg at hall
        exact hall
      have hm := (cacheLoop_of_expired g nowCache _ [] hex).2
      have hc : (TemplateClient.client sim).FetchPrice (resolveSymbols imp g symbols).available
          = Except.ok ((resolveSymbols imp g symbols).available.map fun s =>
            { Symbol := s, Price := sim.DecimalString (sim.ResolveSimulatedPrice s) }) := rfl
      rw [FetchPrices_live imp g _ nowCache nowLive symbols _ hres hm hc]
      intro k p hget
      simp only [foldl_liveStep_get] at hget
      cases hl : lastLive imp nowLive (resolveSymbols imp g symbols).availableSymbolMap
          ((resolveSymbols imp g symbols).available.map fun s =>
            ({ Symbol := s, Price := sim.DecimalString (sim.ResolveSimulatedPrice s) } :
              common.Price)) k with
      | none =>
        rw [hl] at hget
        exact hcache k p hget
      | some q =>
        rw [hl] at hget
        cases hget
        obtain ⟨v, hv, hvk, hlp⟩ := lastLive_some imp nowLive _ k p _ hl
        obtain ⟨s, hs, hsv⟩ := List.mem_map.mp hv
        obtain ⟨hsym, hprice⟩ := livePrice_symbol imp nowLive _ v p hlp
        subst hsv
        simp only at hvk hsym hprice
        subst hvk
        rw [hround s] at hprice
        rw [resolveSymbols_getD_separated imp g hserv.2 symbols s hs] at hsym
        exact ⟨hsym, (Option.some.inj hprice).symm⟩

/-- Every state of the template plugin keeps the cache labelled and priced by the
simulator, and knows either nothing (before the first `State`) or exactly the
default symbols in separated style. -/
theorem TemplateRun.invariant (sim : Simulator Dec) (imp : Imports Dec)
    (hround : ∀ s, imp.NewFromString (sim.DecimalString (sim.ResolveSimulatedPrice s)) =
      some (sim.ResolveSimulatedPrice s))
    (b : Bool) (g : TemplatePlugin Dec) (hrun : TemplateRun sim imp b g) :
    SimCache sim g ∧ (g.availableSymbols = [] ∨ Serving g) ∧ (b = true → Serving g) := by
  induction hrun with
  | new conf version =>
    refine ⟨?_, Or.inl rfl, fun h => by cases h⟩
    intro k p h
    cases h
  | state b g rangeOrder _ hperm ih =>
    obtain ⟨hcache, hg, _⟩ := ih
    have hserv := State_template_serving sim g rangeOrder hperm hg
    refine ⟨?_, Or.inr hserv, fun _ => hserv⟩
    have hc : (TemplateClient.client sim).AvailableSymbols =
        Except.ok (defaultForex ++ defaultCrypto) := rfl
    intro k p h
    rw [(State_ok g _ rangeOrder _ hc hperm).1] at h
    exact hcache k p h
  | fetch b g nowCache nowLive symbols _ ih =>
    obtain ⟨hcache, hg, hb⟩ := ih
    have hframe := FetchPrices_frame imp g (TemplateClient.client sim) nowCache nowLive symbols
    have hs : ∀ g1 : TemplatePlugin Dec, g1.availableSymbols = g.availableSymbols →
        g1.separatedStyle = g.separatedStyle →
        (g1.availableSymbols = [] ∨ Serving g1) ∧ (b = true → Serving g1) := by
      intro g1 h1 h2
      have hiff : Serving g1 ↔ Serving g := by
        unfold Serving
        rw [h1, h2]
      exact ⟨by rw [h1, hiff]; exact hg, fun h => hiff.mpr (hb h)⟩
    refine ⟨FetchPrices_template_simCache sim imp hround g nowCache nowLive symbols hcache hg,
      hs _ (by rw [hframe]) (by rw [hframe])⟩

/-- C15: the template plugin reports the simulated price of every symbol it serves.
For a `TemplatePlugin` wired to the `TemplateClient`, in any state reached after a
`State` call, and assuming `decimal.NewFromString` parses back what `Decimal.String`
prints of a simulated price, `FetchPrices` on every non-empty list of default symbols
returns a nil error, empty `BadSymbols`, and one price per requested symbol in request
order, labelled with that symbol and equal to `helpers.ResolveSimulatedPrice` of it. -/
theorem template_plugin_reports_simulated_prices (sim : Simulator Dec) (imp : Imports Dec)
    (hround : ∀ s, imp.NewFromString (sim.DecimalString (sim.ResolveSimulatedPrice s)) =
      some (sim.ResolveSimulatedPrice s))
    (g : TemplatePlugin Dec) (hrun : TemplateRun sim imp true g)
    (nowCache nowLive : Int) (symbols : List String) (hne : symbols ≠ [])
    (hdef : ∀ s ∈ symbols, s ∈ defaultForex ++ defaultCrypto) :
    (FetchPrices imp g (TemplateClient.client sim) nowCache nowLive symbols).err = none ∧
    (FetchPrices imp g (TemplateClient.client sim) nowCache nowLive
      symbols).report.BadSymbols = [] ∧
    (FetchPrices imp g (TemplateClient.client sim) nowCache nowLive
      symbols).report.Prices.map (fun p => (p.Symbol, p.Price)) =
      symbols.map (fun s => (s, sim.ResolveSimulatedPrice s)) := by
  obtain ⟨hcache, _, hb⟩ := TemplateRun.invariant sim imp hround true g hrun
  obtain ⟨hhas, hsep⟩ := hb rfl
  obtain ⟨havail, hbad⟩ := resolveSymbols_known imp g hsep symbols
    (fun s hs => (hhas s).mpr (hdef s hs))
  have hres : (resolveSymbols imp g symbols).available ≠ [] := by
    rw [havail]
    exact hne
  by_cases hall : ∀ s ∈ (resolveSymbols imp g symbols).available, Unexpired g nowCache s
  · obtain ⟨ps, hmap, hout⟩ := FetchPrices_hit imp g nowCache symbols hres hall
    rw [hout _ nowLive, hbad]
    refine ⟨rfl, rfl, ?_⟩
    rw [havail] at hmap
    exact map_eq_of_map_some g.cachePrices.get _ _ ps symbols hmap
      (fun s _ p hp => by
        obtain ⟨h1, h2⟩ := hcache s p hp
        show (p.Symbol, p.Price) = (s, sim.ResolveSimulatedPrice s)
        rw [h1, h2])
  · have hex : ∃ s ∈ (resolveSymbols imp g symbols).available, ¬ Unexpired g nowCache s := by
      push_neg at hall
      exact hall
    have hm := (cacheLoop_of_expired g nowCache _ [] hex).2
    have hc : (TemplateClient.client sim).FetchPrice (resolveSymbols imp g symbols).available
        = Except.ok ((resolveSymbols imp g symbols).available.map fun s =>
          { Symbol := s, Price := sim.DecimalString (sim.ResolveSimulatedPrice s) }) := rfl
    rw [FetchPrices_live imp g _ nowCache nowLive symbols _ hres hm hc, hbad]
    refine ⟨rfl, rfl, ?_⟩
    have hsome : ∀ v ∈ ((resolveSymbols imp g symbols).available.map fun s =>
          ({ Symbol := s, Price := sim.DecimalString (sim.ResolveSimulatedPrice s) } :
            common.Price)),
        livePrice imp nowLive (resolveSymbols imp g symbols).availableSymbolMap v ≠ none := by
      intro v hv
      obtain ⟨s, _, hsv⟩ := List.mem_map.mp hv
      apply livePrice_ne_none
      rw [← hsv, hround s]
      exact Option.some_ne_none _
    have hms := filterMap_map_some
      (livePrice imp nowLive (resolveSymbols imp g symbols).availableSymbolMap) _ hsome
    rw [List.map_map] at hms
    have hfin := map_eq_of_map_some _ (fun p : types.Price Dec => (p.Symbol, p.Price))
      (fun s => (s, sim.ResolveSimulatedPrice s)) _ (resolveSymbols imp g symbols).available hms
      (fun s hs p hp => by
        obtain ⟨hsym, hprice⟩ := livePrice_symbol imp nowLive _ _ p hp
        simp only at hsym hprice
        rw [hround s] at hprice
        rw [resolveSymbols_getD_separated imp g hsep symbols s hs] at hsym
        show (p.Symbol, p.Price) = (s, sim.ResolveSimulatedPrice s)
        rw [hsym, ← Option.some.inj hprice])
    rw [havail] at hfin
    rw [havail]
    exact hfin

/-- Witness for C15: the template plugin with the stand-in simulator, after its first
state refresh, asked for `NTN/USD` and `EUR/USD`. -/
theorem template_plugin_reports_simulated_prices_witness :
    TemplateRun sampleSimulator sampleImports true templateRefreshed ∧
    (FetchPrices sampleImports templateRefreshed (TemplateClient.client sampleSimulator)
      1000 1000 ["NTN/USD", "EUR/USD"]).err = none ∧
    (FetchPrices sampleImports templateRefreshed (TemplateClient.client sampleSimulator)
      1000 1000 ["NTN/USD", "EUR/USD"]).report.Prices.map (fun p => (p.Symbol, p.Price)) =
      [("NTN/USD", 8), ("EUR/USD", 7)] :=
  ⟨TemplateRun.state false _ id (TemplateRun.new sampleConf "v0.0.2")
      (fun l => List.Perm.refl l),
    (template_plugin_reports_simulated_prices sampleSimulator sampleImports
      (fun s => by
        show sampleNewFromString (if (if s = "NTN/USD" then 8 else 7) = 8 then "8" else "7") =
          some (if s = "NTN/USD" then 8 else 7)
        by_cases h : s = "NTN/USD"
        · simp only [h, if_true]; decide
        · simp only [h, if_false]; decide)
      templateRefreshed
      (TemplateRun.state false _ id (TemplateRun.new sampleConf "v0.0.2")
        (fun l => List.Perm.refl l))
      1000 1000 ["NTN/USD", "EUR/USD"] (by decide) (by decide)).1,
    by decide⟩

end TemplatePlugin

namespace httpserver

variable {P Q : Type}

/-- C16: diagnostics dispatch. For every request whose body decodes to a JSON-RPC
message, the handler makes exactly one reply: that of `listPlugins`, `getVersion` or
`getPrices` for the methods "list_plugins", "get_version" and "get_prices", and for
every other method HTTP 400 with the error "unknown method" and the request's ID. Each
of the three handlers, when its encoding succeeds, returns HTTP 200 with the request's
ID and the encoded result, and reads the oracle without changing it. -/
theorem createRouter_dispatch (json : JsonMarshal P Q) (hs : HTTPServer P Q)
    (reqMsg : types.JSONRPCMessage) :
    (reqMsg.Method = "list_plugins" →
      createRouter json hs (reqMsg, none) = [listPlugins json hs reqMsg]) ∧
    (reqMsg.Method = "get_version" →
      createRouter json hs (reqMsg, none) = [getVersion json hs reqMsg]) ∧
    (reqMsg.Method = "get_prices" →
      createRouter json hs (reqMsg, none) = [getPrices json hs reqMsg]) ∧
    (reqMsg.Method ≠ "list_plugins" → reqMsg.Method ≠ "get_version" →
      reqMsg.Method ≠ "get_prices" →
      createRouter json hs (reqMsg, none) =
        [(400, { ID := reqMsg.ID, Method := "", Result := "", Error := "unknown method" })]) ∧
    (∀ enc, json.Plugins hs.oracle.GetPlugins = Except.ok enc →
      listPlugins json hs reqMsg =
        (200, { ID := reqMsg.ID, Method := "", Result := enc, Error := "" })) ∧
    (∀ enc, json.Version hs.oracle.Version = Except.ok enc →
      getVersion json hs reqMsg =
        (200, { ID := reqMsg.ID, Method := "", Result := enc, Error := "" })) ∧
    (∀ enc, json.PriceAndSymbol hs.oracle.GetPrices hs.oracle.Symbols = Except.ok enc →
      getPrices json hs reqMsg =
        (200, { ID := reqMsg.ID, Method := "", Result := enc, Error := "" })) := by
  refine ⟨?_, ?_, ?_, ?_, ?_, ?_, ?_⟩
  · intro h
    simp [createRouter, h]
  · intro h
    simp [createRouter, h]
  · intro h
    simp [createRouter, h]
  · intro h1 h2 h3
    simp [createRouter, h1, h2, h3, StatusBadRequest]
  · intro enc h
    simp [listPlugins, h, StatusOK]
  · intro enc h
    simp [getVersion, h, StatusOK]
  · intro enc h
    simp [getPrices, h, StatusOK]

end httpserver

namespace Aggregator

theorem insertionSort_eq_of_perm (l1 l2 : List ℚ) (h : l1.Perm l2) :
    l1.insertionSort (fun a b => a ≤ b) = l2.insertionSort (fun a b => a ≤ b) := by
  apply List.eq_of_perm_of_sorted (r := fun a b : ℚ => a ≤ b)
  · exact ((List.perm_insertionSort _ l1).trans h).trans (List.perm_insertionSort _ l2).symm
  · exact List.sorted_insertionSort _ l1
  · exact List.sorted_insertionSort _ l2

theorem median_perm (l1 l2 : List ℚ) (h : l1.Perm l2) : median l1 = median l2 := by
  unfold median
  rw [insertionSort_eq_of_perm l1 l2 h]

theorem median_of_sorted (sorted : List ℚ) (hs : sorted.Sorted (fun a b => a ≤ b)) :
    median sorted =
      if sorted.length = 0 then none
      else if sorted.length % 2 = 1 then sorted[sorted.length / 2]?
      else
        match sorted[sorted.length / 2 - 1]?, sorted[sorted.length / 2]? with
        | some a, some b => some ((a + b) / 2)
        | _, _ => none := by
  unfold median
  rw [List.Sorted.insertionSort_eq hs]

theorem median_isSome (obs : List ℚ) (hne : obs ≠ []) : ∃ v, median obs = some v := by
  have hperm := List.perm_insertionSort (fun a b : ℚ => a ≤ b) obs
  have hlen := hperm.length_eq
  have hpos : 0 < obs.length := List.length_pos.mpr hne
  unfold median
  generalize obs.insertionSort (fun a b => a ≤ b) = sorted at hlen
  have hn : ¬ sorted.length = 0 := by omega
  by_cases hodd : sorted.length % 2 = 1
  · have hlt : sorted.length / 2 < sorted.length := by omega
    exact ⟨sorted[sorted.length / 2], by simp [hn, hodd, List.getElem?_eq_getElem hlt]⟩
  · have hlt1 : sorted.length / 2 - 1 < sorted.length := by omega
    have hlt2 : sorted.length / 2 < sorted.length := by omega
    exact ⟨(sorted[sorted.length / 2 - 1] + sorted[sorted.length / 2]) / 2, by
      simp [hn, hodd, List.getElem?_eq_getElem hlt1, List.getElem?_eq_getElem hlt2]⟩

/-- C17: for a symbol with at least `minSources` observations (and at least one), the
aggregator emits a value with the number of sources, and that value is the median of
the observations: for every sorted arrangement of them, the middle value when the
count is odd and the average of the two central values when it is even; it is the
same for every arrival order; and for 200.0, 201.0, 199.0, 1000.0 with three sources
required it is 200.5. -/
theorem aggregate_is_median (minSources : Nat) (symbol : String) (round : Nat)
    (obs : List ℚ) (hmin : minSources ≤ obs.length) (hne : obs ≠ []) :
    (∃ v, aggregate minSources symbol round obs =
        some { symbol := symbol, price := v, sources := obs.length, round := round } ∧
      ∀ sorted : List ℚ, sorted.Perm obs → sorted.Sorted (fun a b => a ≤ b) →
        (∀ k, sorted.length = 2 * k + 1 → sorted[k]? = some v) ∧
        (∀ k, sorted.length = 2 * k →
          ∃ a b, sorted[k - 1]? = some a ∧ sorted[k]? = some b ∧ v = (a + b) / 2)) ∧
    (∀ arrived : List ℚ, arrived.Perm obs →
      aggregate minSources symbol round arrived = aggregate minSources symbol round obs) ∧
    aggregate 3 "ETH-USD" round [200, 201, 199, 1000] =
      some { symbol := "ETH-USD", price := 401 / 2, sources := 4, round := round } := by
  obtain ⟨v, hv⟩ := median_isSome obs hne
  have hlt : ¬ obs.length < minSources := by omega
  refine ⟨⟨v, by simp [aggregate, hlt, hv], ?_⟩, ?_, ?_⟩
  · intro sorted hperm hsorted
    have hm : median sorted = some v := by rw [median_perm sorted obs hperm, hv]
    rw [median_of_sorted sorted hsorted] at hm
    have hpos : 0 < sorted.length := by
      rw [hperm.length_eq]
      exact List.length_pos.mpr hne
    have hn : ¬ sorted.length = 0 := by omega
    refine ⟨?_, ?_⟩
    · intro k hk
      have hodd : sorted.length % 2 = 1 := by omega
      have hhalf : sorted.length / 2 = k := by omega
      simpa [hn, hodd, hhalf] using hm
    · intro k hk
      have hodd : ¬ sorted.length % 2 = 1 := by omega
      have hhalf : sorted.length / 2 = k := by omega
      simp only [hn, hodd, if_false, hhalf] at hm
      cases ha : sorted[k - 1]? with
      | none => simp [ha] at hm
      | some a =>
        cases hb : sorted[k]? with
        | none => simp [ha, hb] at hm
        | some b =>
          simp only [ha, hb, Option.some.injEq] at hm
          exact ⟨a, b, rfl, rfl, hm.symm⟩
  · intro arrived hperm
    unfold aggregate
    rw [median_perm arrived obs hperm, hperm.length_eq]
  · norm_num [aggregate, median, List.insertionSort, List.orderedInsert]

/-- Witness for C17: the four observations of the end-to-end scenario with three
sources required. -/
theorem aggregate_is_median_witness :
    (3 : Nat) ≤ ([200, 201, 199, 1000] : List ℚ).length ∧
    aggregate 3 "ETH-USD" 7 [200, 201, 199, 1000] =
      some { symbol := "ETH-USD", price := 401 / 2, sources := 4, round := 7 } :=
  ⟨by decide,
    (aggregate_is_median 3 "ETH-USD" 7 [200, 201, 199, 1000] (by decide) (by simp)).2.2⟩

end Aggregator

namespace httpserver

variable {P Q : Type}

/-- C21 evaluated on the code: when the body cannot be decoded, the handler replies
HTTP 400 with the decode error and then, there being no `return`, goes on to the
method switch and replies a second time: with the unknown-method reply when the
message was left without a known method, and with a method handler's reply when the
decoder had filled in the method before it failed. -/
theorem createRouter_replies_twice_on_decode_error (json : JsonMarshal P Q)
    (hs : HTTPServer P Q) (reqMsg : types.JSONRPCMessage) (err : GoError) :
    (createRouter json hs (reqMsg, some err)).length = 2 ∧
    createRouter json hs (reqMsg, some err) =
      (400, { ID := "", Method := "", Result := "", Error := err }) ::
        createRouter json hs (reqMsg, none) ∧
    (reqMsg.Method = "" →
      createRouter json hs (reqMsg, some err) =
        [(400, { ID := "", Method := "", Result := "", Error := err }),
         (400, { ID := reqMsg.ID, Method := "", Result := "", Error := "unknown method" })]) ∧
    (reqMsg.Method = "get_version" →
      createRouter json hs (reqMsg, some err) =
        [(400, { ID := "", Method := "", Result := "", Error := err }),
         getVersion json hs reqMsg]) := by
  refine ⟨?_, ?_, ?_, ?_⟩
  · simp [createRouter]
  · simp [createRouter, StatusBadRequest]
  · intro h
    simp [createRouter, h, StatusBadRequest]
  · intro h
    simp [createRouter, h, StatusBadRequest]

end httpserver

theorem utf8ByteSize_eq_zero_iff (s : String) : s.utf8ByteSize = 0 ↔ s = "" := by
  constructor
  · intro h
    cases s with
    | mk l =>
      cases l with
      | nil => rfl
      | cons c rest =>
        simp only [String.utf8ByteSize, String.utf8ByteSize.go] at h
        have := Char.utf8Size_pos c
        omega
  · intro h
    rw [h]
    rfl

/-- C22: `resolveConf` fills in defaults only. `Timeout` becomes 10 and
`DataUpdateInterval` 3600 exactly when they are zero, `Scheme` becomes "https" and
`Endpoint` "127.0.0.1:8080" exactly when they are empty; fields already set, `Name` and
`Key` are unchanged; applying it twice gives what applying it once gives; and
afterwards `Timeout` and `DataUpdateInterval` are non-zero. -/
theorem resolveConf_fills_defaults_only (conf : types.PluginConfig) :
    (resolveConf conf).Timeout = (if conf.Timeout = 0 then 10 else conf.Timeout) ∧
    (resolveConf conf).DataUpdateInterval =
      (if conf.DataUpdateInterval = 0 then 3600 else conf.DataUpdateInterval) ∧
    (resolveConf conf).Scheme = (if conf.Scheme = "" then "https" else conf.Scheme) ∧
    (resolveConf conf).Endpoint =
      (if conf.Endpoint = "" then "127.0.0.1:8080" else conf.Endpoint) ∧
    (resolveConf conf).Key = conf.Key ∧
    (resolveConf conf).Name = conf.Name ∧
    resolveConf (resolveConf conf) = resolveConf conf ∧
    (resolveConf conf).Timeout ≠ 0 ∧
    (resolveConf conf).DataUpdateInterval ≠ 0 := by
  have hshape : resolveConf conf =
      { Name := conf.Name, Key := conf.Key,
        Scheme := if conf.Scheme = "" then "https" else conf.Scheme,
        Endpoint := if conf.Endpoint = "" then "127.0.0.1:8080" else conf.Endpoint,
        Timeout := if conf.Timeout = 0 then 10 else conf.Timeout,
        DataUpdateInterval :=
          if conf.DataUpdateInterval = 0 then 3600 else conf.DataUpdateInterval } := by
    unfold resolveConf
    simp only [utf8ByteSize_eq_zero_iff, defaultTimeout, defaultUpdateInterval,
      defaultScheme, defaultHost, defaultKey]
    by_cases h1 : conf.Timeout = 0 <;> by_cases h2 : conf.DataUpdateInterval = 0 <;>
      by_cases h3 : conf.Scheme = "" <;> by_cases h4 : conf.Endpoint = "" <;>
      by_cases h5 : conf.Key = "" <;> simp [h1, h2, h3, h4, h5]
  have hidem : resolveConf (resolveConf conf) = resolveConf conf := by
    have h2 : ∀ c : types.PluginConfig, c.Timeout ≠ 0 → c.DataUpdateInterval ≠ 0 →
        c.Scheme ≠ "" → c.Endpoint ≠ "" → resolveConf c = c := by
      intro c h1 h2 h3 h4
      unfold resolveConf
      simp only [utf8ByteSize_eq_zero_iff, defaultKey]
      by_cases h5 : c.Key = ""
      · simp [h1, h2, h3, h4, h5]
        cases c
        simp_all
      · simp [h1, h2, h3, h4, h5]
    apply h2
    · rw [hshape]; simp only; split <;> simp_all
    · rw [hshape]; simp only; split <;> simp_all
    · rw [hshape]; simp only; split <;> simp_all
    · rw [hshape]; simp only; split <;> simp_all
  refine ⟨by rw [hshape], by rw [hshape], by rw [hshape], by rw [hshape], by rw [hshape],
    by rw [hshape], hidem, ?_, ?_⟩
  · rw [hshape]; simp only; split <;> simp_all
  · rw [hshape]; simp only; split <;> simp_all

namespace test

theorem lor_eq_zero_iff (a b : Nat) : a ||| b = 0 ↔ a = 0 ∧ b = 0 := by
  constructor
  · intro h
    have hbits : ∀ i, (a.testBit i || b.testBit i) = false := by
      intro i
      rw [← Nat.testBit_or, h, Nat.zero_testBit]
    constructor
    · apply Nat.eq_of_testBit_eq
      intro i
      have := hbits i
      rw [Nat.zero_testBit]
      cases ha : a.testBit i
      · rfl
      · simp [ha] at this
    · apply Nat.eq_of_testBit_eq
      intro i
      have := hbits i
      rw [Nat.zero_testBit]
      cases hb : b.testBit i
      · rfl
      · simp [hb] at this
  · rintro ⟨rfl, rfl⟩
    rfl

theorem orBytes_spec :
    ∀ (sKey : List (Fin 256)) (b : Nat), b < 256 →
      orBytes b sKey < 256 ∧ (orBytes b sKey = 0 ↔ b = 0 ∧ ∀ s ∈ sKey, s = 0) := by
  intro sKey
  induction sKey with
  | nil => intro b hb; simp [orBytes, hb]
  | cons x rest ih =>
    intro b hb
    have hx : x.val < 2 ^ 8 := x.isLt
    have hor : b ||| x.val < 2 ^ 8 := Nat.or_lt_two_pow (by omega) hx
    have hmod : (b ||| x.val) % 256 = b ||| x.val := Nat.mod_eq_of_lt (by omega)
    have hstep : orBytes b (x :: rest) = orBytes (b ||| x.val) rest := by
      simp [orBytes, hmod]
    obtain ⟨hlt, hiff⟩ := ih (b ||| x.val) (by omega)
    rw [hstep]
    refine ⟨hlt, ?_⟩
    rw [hiff, lor_eq_zero_iff]
    constructor
    · rintro ⟨⟨hb0, hx0⟩, hrest⟩
      refine ⟨hb0, ?_⟩
      intro s hs
      rcases List.mem_cons.mp hs with rfl | hs1
      · exact Fin.ext hx0
      · exact hrest s hs1
    · rintro ⟨hb0, hall⟩
      refine ⟨⟨hb0, ?_⟩, fun s hs => hall s (List.mem_cons_of_mem x hs)⟩
      rw [hall x (List.mem_cons_self x rest)]
      rfl

theorem ConstantTimeByteEq_zero (x : Nat) (hx : x < 256) :
    ConstantTimeByteEq x 0 = 1 ↔ x = 0 := by
  unfold ConstantTimeByteEq
  rw [Nat.xor_zero, Nat.shiftRight_eq_div_pow]
  omega

/-- C23: `IsZero(sKey)` returns true if and only if every byte of `sKey` is zero, for
byte slices of every length; in particular it is true for the empty slice. -/
theorem IsZero_iff_all_bytes_zero (sKey : List (Fin 256)) :
    (IsZero sKey = true ↔ ∀ s ∈ sKey, s = 0) ∧ IsZero [] = true := by
  obtain ⟨hlt, hiff⟩ := orBytes_spec sKey 0 (by omega)
  refine ⟨?_, by decide⟩
  unfold IsZero
  rw [beq_iff_eq, ConstantTimeByteEq_zero _ hlt, hiff]
  simp

end test

end AutonityOracle
